import Mathlib

/-!
Verification development for the notebook-panopticon grading-assistance tool.

The repository's matching and rendering routines (src/app.py,
src/starter_notebooks.py, src/rubric_analysis.py) are shallowly embedded
below.  Python strings are modelled as Lean `String` (lists of characters),
Python floats as exact rationals, notebook files as a `Notebook` structure
holding the ordered cell list, and the filesystem / session state as explicit
function arguments.  The standard-library `difflib.SequenceMatcher` that the
repository calls (always with `isjunk=None`) is embedded from its CPython
source in the `difflib` namespace; with `isjunk=None` the junk set is empty,
so the two junk-extension loops of `find_longest_match` are no-ops and are
dropped, while the `autojunk` purge of popular elements is kept.  CPython's
`get_matching_blocks` processes subregions through a LIFO queue and then
sorts the collected blocks; the in-order recursion used here visits exactly
the same subregions and already produces the sorted list.
-/

namespace Panopticon

/-! ### Python string primitives -/

/-- The scan of Python `str.replace(pat, rep)`, with a structural fuel
argument bounding the number of steps (each step consumes at least one
character, so any fuel at least the string length gives the untruncated
scan). -/
def pyReplaceGo : Nat → List Char → List Char → List Char → List Char
  | _, [], _, _ => []
  | 0, s, _, _ => s
  | fuel + 1, c :: rest, pat, rep =>
    if pat ≠ [] ∧ pat.isPrefixOf (c :: rest) then
      rep ++ pyReplaceGo fuel ((c :: rest).drop pat.length) pat rep
    else
      c :: pyReplaceGo fuel rest pat rep

/-- Python `str.replace(pat, rep)`: replace every non-overlapping occurrence
of `pat`, scanning left to right. -/
def pyReplace (s pat rep : List Char) : List Char :=
  pyReplaceGo s.length s pat rep

/-- The HTML escaping performed by both `format_chunk` copies in src/app.py:
`chunk.replace("&", "&amp;").replace("<", "&lt;").replace(">", "&gt;")`. -/
def escapeChars (s : List Char) : List Char :=
  pyReplace (pyReplace (pyReplace s ['&'] "&amp;".data) ['<'] "&lt;".data) ['>'] "&gt;".data

/-- String-level wrapper for `escapeChars`. -/
def escapeHtml (s : String) : String := ⟨escapeChars s.data⟩

/-- Python `sep.join(xs)`. -/
def pyJoin (sep : String) (xs : List String) : String :=
  ⟨List.intercalate sep.data (xs.map String.data)⟩

/-- Python `s.split('\n')` on character lists; the result is always
non-empty. -/
def splitOnNlChars : List Char → List (List Char)
  | [] => [[]]
  | c :: rest =>
    if c = '\n' then [] :: splitOnNlChars rest
    else
      match splitOnNlChars rest with
      | l :: ls => (c :: l) :: ls
      | [] => [[c]]

/-- Python `s.split('\n')` on strings. -/
def pySplitOnNl (s : String) : List String :=
  (splitOnNlChars s.data).map fun l => ⟨l⟩

/-- Characters that Python `str.splitlines` treats as line boundaries. -/
def isLineBoundary (c : Char) : Bool :=
  c = '\n' || c = '\r' || c = '\x0b' || c = '\x0c' ||
  c = '\x1c' || c = '\x1d' || c = '\x1e' || c = '\x85' ||
  c = ' ' || c = ' '

/-- Python `str.splitlines()` on character lists: `\r\n` counts as a single
boundary, a trailing boundary produces no extra empty line. -/
def splitlinesChars : List Char → List Char → List (List Char)
  | acc, [] => if acc = [] then [] else [acc.reverse]
  | acc, '\r' :: '\n' :: rest => acc.reverse :: splitlinesChars [] rest
  | acc, c :: rest =>
    if isLineBoundary c then acc.reverse :: splitlinesChars [] rest
    else splitlinesChars (c :: acc) rest

/-- Python `s.splitlines()` on strings. -/
def pySplitlines (s : String) : List String :=
  (splitlinesChars [] s.data).map fun l => ⟨l⟩

end Panopticon

namespace Panopticon.difflib

/-!
### difflib.SequenceMatcher, embedded from CPython's Lib/difflib.py
with `isjunk=None` (the only way the repository instantiates it).
-/

variable {α : Type} [DecidableEq α]

/-- The ascending list of positions of `x` in `b`; the value of `b2j[x]`
before the autojunk purge. -/
def bIndices (b : List α) (x : α) : List Nat :=
  (List.range b.length).filter fun j => decide (b.get? j = some x)

/-- The autojunk rule of `SequenceMatcher.__chain_b`: when `len(b) >= 200`,
elements occurring more than `len(b) // 100 + 1` times are purged from
`b2j`. -/
def isPopular (b : List α) (x : α) : Bool :=
  decide (200 ≤ b.length) && decide (b.length / 100 + 1 < (bIndices b x).length)

/-- `b2j.get(x, [])` after the autojunk purge (`isjunk=None`, so no junk
purge happens). -/
def b2j (b : List α) (x : α) : List Nat :=
  if isPopular b x then [] else bIndices b x

/-- One iteration of the inner `for j in b2j.get(a[i], nothing)` loop of
`find_longest_match`: the state is the new `j2len` row together with the
current `(besti, bestj, bestsize)`; `old` is the previous row of `j2len`. -/
def flmInner (i : Nat) (old : Nat → Nat)
    (st : (Nat → Nat) × Nat × Nat × Nat) (j : Nat) :
    (Nat → Nat) × Nat × Nat × Nat :=
  let k := if j = 0 then 1 else old (j - 1) + 1
  let newm := fun x => if x = j then k else st.1 x
  if st.2.2.2 < k then (newm, i + 1 - k, j + 1 - k, k) else (newm, st.2)

/-- One iteration of the outer `for i in range(alo, ahi)` loop of
`find_longest_match` (CPython indexes `a[i]` which is always in range at
call sites; an out-of-range index is treated as matching nothing). -/
def flmRow (b : List α) (blo bhi : Nat) (ai : Option α) (i : Nat)
    (old : Nat → Nat) (best : Nat × Nat × Nat) :
    (Nat → Nat) × Nat × Nat × Nat :=
  match ai with
  | none => (fun _ => 0, best)
  | some x =>
    let js := (b2j b x).filter fun j => decide (blo ≤ j) && decide (j < bhi)
    js.foldl (flmInner i old) ((fun _ => 0), best)

/-- The dynamic-programming phase of `find_longest_match`. -/
def flmDP (a b : List α) (alo ahi blo bhi : Nat) : Nat × Nat × Nat :=
  ((List.range' alo (ahi - alo)).foldl
    (fun st i => flmRow b blo bhi (a.get? i) i st.1 st.2)
    ((fun _ => 0), alo, blo, 0)).2

/-- `a[i] == b[j]`, with out-of-range indices matching nothing. -/
def matchAt (a b : List α) (i j : Nat) : Bool :=
  match a.get? i, b.get? j with
  | some x, some y => decide (x = y)
  | _, _ => false

/-- The lower extension loop of `find_longest_match`
(`while besti > alo and bestj > blo and ... a[besti-1] == b[bestj-1]`);
with `isjunk=None` the junk test is vacuous. -/
def extendLo (a b : List α) (alo blo : Nat) : Nat → Nat → Nat → Nat × Nat × Nat
  | 0, bestj, k => (0, bestj, k)
  | besti + 1, bestj, k =>
    if alo < besti + 1 ∧ blo < bestj ∧ matchAt a b (besti + 1 - 1) (bestj - 1) then
      extendLo a b alo blo besti (bestj - 1) (k + 1)
    else
      (besti + 1, bestj, k)

/-- The upper extension loop of `find_longest_match`
(`while besti+bestsize < ahi and ... a[besti+bestsize] == b[bestj+bestsize]`);
the structural fuel bounds the iteration count, and the loop runs at most
`ahi - (besti + k) ≤ ahi` times, so fuel `ahi` gives the untruncated loop. -/
def extendHi (a b : List α) (ahi bhi : Nat) : Nat → Nat → Nat → Nat → Nat × Nat × Nat
  | 0, besti, bestj, k => (besti, bestj, k)
  | fuel + 1, besti, bestj, k =>
    if besti + k < ahi ∧ bestj + k < bhi ∧ matchAt a b (besti + k) (bestj + k) then
      extendHi a b ahi bhi fuel besti bestj (k + 1)
    else
      (besti, bestj, k)

/-- `SequenceMatcher.find_longest_match(alo, ahi, blo, bhi)`: the DP result
extended on both ends (the junk-extension loops are no-ops since
`isjunk=None`). -/
def find_longest_match (a b : List α) (alo ahi blo bhi : Nat) : Nat × Nat × Nat :=
  let t := flmDP a b alo ahi blo bhi
  let t2 := extendLo a b alo blo t.1 t.2.1 t.2.2
  extendHi a b ahi bhi ahi t2.1 t2.2.1 t2.2.2

/-- Invariant of a `j2len` row: every nonzero entry records a match run that
starts at or after `blo` and ends before row `bnd`. -/
abbrev RowInv (alo blo bnd : Nat) (m : Nat → Nat) : Prop :=
  ∀ j, m j = 0 ∨ (blo ≤ j ∧ m j + alo ≤ bnd ∧ m j + blo ≤ j + 1)

/-- Invariant of the `(besti, bestj, bestsize)` triple: it is either the
initial `(alo, blo, 0)` or a block lying inside the region. -/
abbrev GoodB (alo ahi blo bhi : Nat) (t : Nat × Nat × Nat) : Prop :=
  t = (alo, blo, 0) ∨
  (alo ≤ t.1 ∧ t.1 + t.2.2 ≤ ahi ∧ blo ≤ t.2.1 ∧ t.2.1 + t.2.2 ≤ bhi)

lemma goodB_mk {alo ahi blo bhi x y z : Nat}
    (h1 : alo ≤ x) (h2 : x + z ≤ ahi) (h3 : blo ≤ y) (h4 : y + z ≤ bhi) :
    GoodB alo ahi blo bhi (x, y, z) :=
  Or.inr ⟨h1, h2, h3, h4⟩

lemma goodB_cases {alo ahi blo bhi x y z : Nat}
    (h : GoodB alo ahi blo bhi (x, y, z)) :
    (x = alo ∧ y = blo ∧ z = 0) ∨
    (alo ≤ x ∧ x + z ≤ ahi ∧ blo ≤ y ∧ y + z ≤ bhi) := by
  rcases h with h | h
  · left
    simpa [Prod.ext_iff] using h
  · right
    exact h

lemma flmInner_preserves {alo ahi blo bhi i : Nat} (old : Nat → Nat)
    (hi1 : alo ≤ i) (hi2 : i < ahi)
    (hold : RowInv alo blo i old)
    {m : Nat → Nat} {best : Nat × Nat × Nat} {j : Nat}
    (hj1 : blo ≤ j) (hj2 : j < bhi)
    (hm : RowInv alo blo (i + 1) m) (hb : GoodB alo ahi blo bhi best) :
    RowInv alo blo (i + 1) (flmInner i old (m, best) j).1 ∧
    GoodB alo ahi blo bhi (flmInner i old (m, best) j).2 := by
  have hk : (if j = 0 then 1 else old (j - 1) + 1) + alo ≤ i + 1 ∧
      (if j = 0 then 1 else old (j - 1) + 1) + blo ≤ j + 1 := by
    split
    · omega
    · rcases hold (j - 1) with h0 | ⟨h1, h2, h3⟩ <;> omega
  have h1 : (flmInner i old (m, best) j).1 =
      fun x => if x = j then (if j = 0 then 1 else old (j - 1) + 1) else m x := by
    simp only [flmInner]
    split <;> split <;> rfl
  have h2 : (flmInner i old (m, best) j).2 =
      if best.2.2 < (if j = 0 then 1 else old (j - 1) + 1) then
        (i + 1 - (if j = 0 then 1 else old (j - 1) + 1),
         j + 1 - (if j = 0 then 1 else old (j - 1) + 1),
         (if j = 0 then 1 else old (j - 1) + 1))
      else best := by
    simp only [flmInner]
    split <;> split <;> rfl
  constructor
  · rw [h1]
    intro j'
    beta_reduce
    split
    · rename_i hj'
      subst hj'
      exact Or.inr ⟨hj1, by omega, by omega⟩
    · exact hm j'
  · rw [h2]
    generalize hKg : (if j = 0 then 1 else old (j - 1) + 1) = K at hk
    split
    · exact goodB_mk (by omega) (by omega) (by omega) (by omega)
    · exact hb

lemma flmInner_foldl {alo ahi blo bhi i : Nat} (old : Nat → Nat)
    (hi1 : alo ≤ i) (hi2 : i < ahi)
    (hold : RowInv alo blo i old) :
    ∀ (js : List Nat) (m : Nat → Nat) (best : Nat × Nat × Nat),
      (∀ j ∈ js, blo ≤ j ∧ j < bhi) →
      RowInv alo blo (i + 1) m → GoodB alo ahi blo bhi best →
      RowInv alo blo (i + 1) (js.foldl (flmInner i old) (m, best)).1 ∧
      GoodB alo ahi blo bhi (js.foldl (flmInner i old) (m, best)).2 := by
  intro js
  induction js with
  | nil => intro m best _ hm hb; exact ⟨hm, hb⟩
  | cons j js ih =>
    intro m best hjs hm hb
    have hj := hjs j (by simp)
    have hstep := flmInner_preserves old hi1 hi2 hold hj.1 hj.2 hm hb
    simp only [List.foldl_cons]
    have heq : flmInner i old (m, best) j =
        ((flmInner i old (m, best) j).1, (flmInner i old (m, best) j).2) := rfl
    rw [heq]
    exact ih _ _ (fun x hx => hjs x (by simp [hx])) hstep.1 hstep.2

lemma flmRow_preserves {alo ahi blo bhi i : Nat} {b : List α} (ai : Option α)
    (old : Nat → Nat) (best : Nat × Nat × Nat)
    (hi1 : alo ≤ i) (hi2 : i < ahi)
    (hold : RowInv alo blo i old) (hb : GoodB alo ahi blo bhi best) :
    RowInv alo blo (i + 1) (flmRow b blo bhi ai i old best).1 ∧
    GoodB alo ahi blo bhi (flmRow b blo bhi ai i old best).2 := by
  match ai with
  | none => exact ⟨fun j => Or.inl rfl, hb⟩
  | some x =>
    simp only [flmRow]
    refine flmInner_foldl old hi1 hi2 hold _ _ best ?_ (fun j => Or.inl rfl) hb
    intro j hj
    simp only [List.mem_filter, Bool.and_eq_true, decide_eq_true_eq] at hj
    exact hj.2

lemma flmDP_foldl {alo ahi blo bhi : Nat} {a b : List α} :
    ∀ (n s : Nat), alo ≤ s → s + n ≤ ahi →
    ∀ (st : (Nat → Nat) × Nat × Nat × Nat),
      RowInv alo blo s st.1 → GoodB alo ahi blo bhi st.2 →
      GoodB alo ahi blo bhi
        (((List.range' s n).foldl
          (fun st i => flmRow b blo bhi (a.get? i) i st.1 st.2) st)).2 := by
  intro n
  induction n with
  | zero => intro s _ _ st _ hb; simpa using hb
  | succ n ih =>
    intro s hs hend st hrow hb
    simp only [List.range'_succ, List.foldl_cons]
    have hstep := @flmRow_preserves α _ alo ahi blo bhi s b (a.get? s)
      st.1 st.2 hs (by omega) hrow hb
    exact ih (s + 1) (by omega) (by omega) _ hstep.1 hstep.2

lemma flmDP_good {a b : List α} {alo ahi blo bhi : Nat} :
    GoodB alo ahi blo bhi (flmDP a b alo ahi blo bhi) := by
  unfold flmDP
  by_cases h : alo ≤ ahi
  · exact flmDP_foldl (ahi - alo) alo le_rfl (by omega) _
      (fun j => Or.inl rfl) (Or.inl rfl)
  · have h0 : ahi - alo = 0 := by omega
    rw [h0]
    exact Or.inl rfl

lemma extendLo_good {a b : List α} {alo ahi blo bhi : Nat} :
    ∀ (besti bestj k : Nat), GoodB alo ahi blo bhi (besti, bestj, k) →
      GoodB alo ahi blo bhi (extendLo a b alo blo besti bestj k) := by
  intro besti
  induction besti with
  | zero =>
    intro bestj k h
    exact h
  | succ besti ih =>
    intro bestj k h
    rw [extendLo]
    split
    · rename_i hc
      refine ih (bestj - 1) (k + 1) ?_
      rcases goodB_cases h with ⟨e1, e2, e3⟩ | ⟨g1, g2, g3, g4⟩
      · omega
      · exact goodB_mk (by omega) (by omega) (by omega) (by omega)
    · exact h

lemma extendHi_good {a b : List α} {alo ahi blo bhi : Nat} :
    ∀ (fuel besti bestj k : Nat), GoodB alo ahi blo bhi (besti, bestj, k) →
      GoodB alo ahi blo bhi (extendHi a b ahi bhi fuel besti bestj k) := by
  intro fuel
  induction fuel with
  | zero =>
    intro besti bestj k h
    exact h
  | succ fuel ih =>
    intro besti bestj k h
    rw [extendHi]
    split
    · rename_i hc
      refine ih besti bestj (k + 1) ?_
      rcases goodB_cases h with ⟨e1, e2, e3⟩ | ⟨g1, g2, g3, g4⟩
      · exact goodB_mk (by omega) (by omega) (by omega) (by omega)
      · exact goodB_mk (by omega) (by omega) (by omega) (by omega)
    · exact h

/-- The block returned by `find_longest_match` is either the trivial
`(alo, blo, 0)` or lies inside the queried region. -/
lemma flm_good {a b : List α} {alo ahi blo bhi : Nat} :
    GoodB alo ahi blo bhi (find_longest_match a b alo ahi blo bhi) := by
  unfold find_longest_match
  exact extendHi_good _ _ _ _
    (extendLo_good _ _ _ flmDP_good)

lemma flm_pos_bounds {a b : List α} {alo ahi blo bhi : Nat}
    (h : (find_longest_match a b alo ahi blo bhi).2.2 ≠ 0) :
    alo ≤ (find_longest_match a b alo ahi blo bhi).1 ∧
    (find_longest_match a b alo ahi blo bhi).1 +
      (find_longest_match a b alo ahi blo bhi).2.2 ≤ ahi ∧
    blo ≤ (find_longest_match a b alo ahi blo bhi).2.1 ∧
    (find_longest_match a b alo ahi blo bhi).2.1 +
      (find_longest_match a b alo ahi blo bhi).2.2 ≤ bhi := by
  rcases @flm_good α _ a b alo ahi blo bhi with hg | hg
  · rw [hg] at h
    simp at h
  · exact hg

/-- The recursive block collection of `SequenceMatcher.get_matching_blocks`.
CPython drains a LIFO queue of subregions and sorts the collected blocks at
the end; this recursion visits the same subregions in order, which already
yields the sorted list.  The structural fuel bounds the recursion depth:
every recursive call strictly shrinks `ahi - alo`, so any fuel at least
`ahi - alo` gives the full collection (`get_matching_blocks` passes
`a.length`). -/
def collectBlocks (a b : List α) : Nat → Nat → Nat → Nat → Nat → List (Nat × Nat × Nat)
  | 0, _, _, _, _ => []
  | fuel + 1, alo, ahi, blo, bhi =>
    if (find_longest_match a b alo ahi blo bhi).2.2 = 0 then []
    else
      (if alo < (find_longest_match a b alo ahi blo bhi).1 ∧
          blo < (find_longest_match a b alo ahi blo bhi).2.1 then
        collectBlocks a b fuel alo (find_longest_match a b alo ahi blo bhi).1
          blo (find_longest_match a b alo ahi blo bhi).2.1
      else []) ++
      ((find_longest_match a b alo ahi blo bhi).1,
       (find_longest_match a b alo ahi blo bhi).2.1,
       (find_longest_match a b alo ahi blo bhi).2.2) ::
      (if (find_longest_match a b alo ahi blo bhi).1 +
            (find_longest_match a b alo ahi blo bhi).2.2 < ahi ∧
          (find_longest_match a b alo ahi blo bhi).2.1 +
            (find_longest_match a b alo ahi blo bhi).2.2 < bhi then
        collectBlocks a b fuel
          ((find_longest_match a b alo ahi blo bhi).1 +
            (find_longest_match a b alo ahi blo bhi).2.2) ahi
          ((find_longest_match a b alo ahi blo bhi).2.1 +
            (find_longest_match a b alo ahi blo bhi).2.2) bhi
      else [])

/-- `sum(triple[-1] for triple in blocks)`. -/
def sumK (l : List (Nat × Nat × Nat)) : Nat :=
  (l.map fun t => t.2.2).sum

/-- Total matched size inside a region is at most the size of either side. -/
lemma collectBlocks_sumK_le {a b : List α} :
    ∀ fuel alo ahi blo bhi,
    sumK (collectBlocks a b fuel alo ahi blo bhi) ≤ ahi - alo ∧
    sumK (collectBlocks a b fuel alo ahi blo bhi) ≤ bhi - blo := by
  intro fuel
  induction fuel with
  | zero =>
    intro alo ahi blo bhi
    simp [collectBlocks, sumK]
  | succ fuel ih =>
    intro alo ahi blo bhi
    rw [collectBlocks]
    split
    · simp [sumK]
    · rename_i hk
      have hb := flm_pos_bounds hk
      set t := find_longest_match a b alo ahi blo bhi with ht
      have hleft : sumK (if alo < t.1 ∧ blo < t.2.1 then
          collectBlocks a b fuel alo t.1 blo t.2.1 else []) ≤ t.1 - alo ∧
          sumK (if alo < t.1 ∧ blo < t.2.1 then
          collectBlocks a b fuel alo t.1 blo t.2.1 else []) ≤ t.2.1 - blo := by
        split
        · exact ih alo t.1 blo t.2.1
        · simp [sumK]
      have hright : sumK (if t.1 + t.2.2 < ahi ∧ t.2.1 + t.2.2 < bhi then
          collectBlocks a b fuel (t.1 + t.2.2) ahi (t.2.1 + t.2.2) bhi else []) ≤
          ahi - (t.1 + t.2.2) ∧
          sumK (if t.1 + t.2.2 < ahi ∧ t.2.1 + t.2.2 < bhi then
          collectBlocks a b fuel (t.1 + t.2.2) ahi (t.2.1 + t.2.2) bhi else []) ≤
          bhi - (t.2.1 + t.2.2) := by
        split
        · exact ih (t.1 + t.2.2) ahi (t.2.1 + t.2.2) bhi
        · simp [sumK]
      simp only [sumK, List.map_append, List.map_cons, List.sum_append,
        List.sum_cons] at *
      omega

/-- The merge of adjacent blocks at the end of `get_matching_blocks`:
the state is the pending block `(i1, j1, k1)` together with the accumulated
`non_adjacent` list. -/
def mergeStep (st : (Nat × Nat × Nat) × List (Nat × Nat × Nat))
    (blk : Nat × Nat × Nat) : (Nat × Nat × Nat) × List (Nat × Nat × Nat) :=
  if st.1.1 + st.1.2.2 = blk.1 ∧ st.1.2.1 + st.1.2.2 = blk.2.1 then
    ((st.1.1, st.1.2.1, st.1.2.2 + blk.2.2), st.2)
  else if st.1.2.2 ≠ 0 then
    (blk, st.2 ++ [st.1])
  else
    (blk, st.2)

/-- `SequenceMatcher.get_matching_blocks()`: collect, merge adjacent blocks,
and append the terminal `(len(a), len(b), 0)` sentinel. -/
def get_matching_blocks (a b : List α) : List (Nat × Nat × Nat) :=
  let blocks := collectBlocks a b a.length 0 a.length 0 b.length
  let st := blocks.foldl mergeStep ((0, 0, 0), [])
  (st.2 ++ if st.1.2.2 ≠ 0 then [st.1] else []) ++ [(a.length, b.length, 0)]

lemma mergeStep_foldl_sumK :
    ∀ (l : List (Nat × Nat × Nat)) (st : (Nat × Nat × Nat) × List (Nat × Nat × Nat)),
      sumK (l.foldl mergeStep st).2 + (l.foldl mergeStep st).1.2.2 =
      sumK st.2 + st.1.2.2 + sumK l := by
  intro l
  induction l with
  | nil => intro st; simp [sumK]
  | cons blk l ih =>
    intro st
    simp only [List.foldl_cons]
    rw [ih]
    simp only [mergeStep]
    split
    · simp only [sumK, List.map_cons, List.sum_cons]
      omega
    · split <;>
      · simp only [sumK, List.map_append, List.map_cons, List.sum_append,
          List.sum_cons, List.map_nil, List.sum_nil]
        omega

/-- `ratio()`'s match count is at most the length of either sequence. -/
lemma gmb_sumK_le (a b : List α) :
    sumK (get_matching_blocks a b) ≤ a.length ∧
    sumK (get_matching_blocks a b) ≤ b.length := by
  unfold get_matching_blocks
  have hsum := mergeStep_foldl_sumK (collectBlocks a b a.length 0 a.length 0 b.length)
    ((0, 0, 0), [])
  have hle := collectBlocks_sumK_le (a := a) (b := b) a.length
    0 a.length 0 b.length
  set st := (collectBlocks a b a.length 0 a.length 0 b.length).foldl mergeStep
    ((0, 0, 0), []) with hst
  have h2 : sumK ((st.2 ++ if st.1.2.2 ≠ 0 then [st.1] else []) ++
      [(a.length, b.length, 0)]) = sumK st.2 +
      (if st.1.2.2 ≠ 0 then st.1.2.2 else 0) := by
    split <;> simp [sumK] <;> omega
  rw [h2]
  simp only [sumK, List.map_nil, List.sum_nil] at hsum hle ⊢
  split <;> omega

/-- `SequenceMatcher.ratio()`: `2.0 * M / T` where `M` is the total size of
the matching blocks and `T` the total length (`1.0` when both are empty). -/
def ratio (a b : List α) : ℚ :=
  if a.length + b.length = 0 then 1
  else 2 * (sumK (get_matching_blocks a b) : ℚ) / (a.length + b.length : ℚ)

/-- `SequenceMatcher.real_quick_ratio()`:
`_calculate_ratio(min(la, lb), la + lb)`. -/
def real_quick_ratio (a b : List α) : ℚ :=
  if a.length + b.length = 0 then 1
  else 2 * (min a.length b.length : ℚ) / (a.length + b.length : ℚ)

lemma ratio_le_rqr (a b : List α) : ratio a b ≤ real_quick_ratio a b := by
  unfold ratio real_quick_ratio
  split
  · exact le_rfl
  · rename_i h
    have hpos : (0 : ℚ) < (a.length + b.length : ℚ) := by
      have : 0 < a.length + b.length := Nat.pos_of_ne_zero h
      push_cast
      exact_mod_cast this
    rw [div_le_div_right hpos]
    have hle := gmb_sumK_le a b
    have : sumK (get_matching_blocks a b) ≤ min a.length b.length := by omega
    have hc : (sumK (get_matching_blocks a b) : ℚ) ≤ (min a.length b.length : ℚ) := by
      exact_mod_cast this
    nlinarith

lemma ratio_nonneg (a b : List α) : 0 ≤ ratio a b := by
  unfold ratio
  split
  · norm_num
  · rename_i h
    have hpos : (0 : ℚ) < (a.length + b.length : ℚ) := by
      have : 0 < a.length + b.length := Nat.pos_of_ne_zero h
      exact_mod_cast this
    positivity

lemma ratio_le_one (a b : List α) : ratio a b ≤ 1 := by
  have h1 := ratio_le_rqr a b
  have h2 : real_quick_ratio a b ≤ 1 := by
    unfold real_quick_ratio
    split
    · exact le_rfl
    · rename_i h
      have hpos : (0 : ℚ) < (a.length + b.length : ℚ) := by
        have : 0 < a.length + b.length := Nat.pos_of_ne_zero h
        exact_mod_cast this
      rw [div_le_one hpos]
      have : 2 * min a.length b.length ≤ a.length + b.length := by omega
      exact_mod_cast this
  linarith

lemma rqr_nonneg (a b : List α) : 0 ≤ real_quick_ratio a b := by
  unfold real_quick_ratio
  split
  · norm_num
  · rename_i h
    have hpos : (0 : ℚ) < (a.length + b.length : ℚ) := by
      have : 0 < a.length + b.length := Nat.pos_of_ne_zero h
      exact_mod_cast this
    positivity

/-- `SequenceMatcher.get_opcodes()`: turn the matching blocks into
`(tag, i1, i2, j1, j2)` opcodes. -/
def get_opcodes (a b : List α) : List (String × Nat × Nat × Nat × Nat) :=
  ((get_matching_blocks a b).foldl
    (fun (st : (Nat × Nat) × List (String × Nat × Nat × Nat × Nat)) blk =>
      let i := st.1.1
      let j := st.1.2
      let tag : String :=
        if i < blk.1 ∧ j < blk.2.1 then "replace"
        else if i < blk.1 then "delete"
        else if j < blk.2.1 then "insert"
        else ""
      let answer := if tag ≠ "" then st.2 ++ [(tag, i, blk.1, j, blk.2.1)] else st.2
      let answer := if blk.2.2 ≠ 0 then
          answer ++ [("equal", blk.1, blk.1 + blk.2.2, blk.2.1, blk.2.1 + blk.2.2)]
        else answer
      ((blk.1 + blk.2.2, blk.2.1 + blk.2.2), answer))
    ((0, 0), [])).2

end Panopticon.difflib

namespace Panopticon

/-! ### Notebook model (nbformat cells: ordered list of typed sources) -/

/-- A notebook cell: `cell_type` and `source` as used by the repository. -/
structure Cell where
  cell_type : String
  source : String
deriving DecidableEq

/-- A parsed notebook: its ordered cell list. -/
structure Notebook where
  cells : List Cell
deriving DecidableEq

namespace app

/-- `notebook_to_quarto` from src/app.py: markdown cells verbatim, code
cells in a `python` fence, others skipped, chunks joined by one blank
line. -/
def notebook_to_quarto (nb : Notebook) : String :=
  pyJoin "\n\n" (nb.cells.foldl (fun chunks cell =>
    if cell.cell_type = "markdown" then chunks ++ [cell.source]
    else if cell.cell_type = "code" then
      chunks ++ ["```\x7bpython\x7d\n" ++ cell.source ++ "\n```"]
    else chunks) [])

/-- `'\n'.join(cell.get('source', '') for cell in nb.cells)` as used by
`compute_diff_score`. -/
def cellSourcesJoined (nb : Notebook) : String :=
  pyJoin "\n" (nb.cells.map fun c => c.source)

/-- `compute_diff_score` from src/app.py: one minus the `SequenceMatcher`
ratio of the newline-joined cell sources. -/
def compute_diff_score (submission starter : Notebook) : ℚ :=
  1 - difflib.ratio (cellSourcesJoined submission).data (cellSourcesJoined starter).data

/-- One iteration of the `for starter_path in starter_paths` loop of
`find_matching_starter`. -/
def fmsStep (submission : Notebook) (fsNb : String → Notebook)
    (st : Option String × WithTop ℚ) (sp : String) : Option String × WithTop ℚ :=
  if (compute_diff_score submission (fsNb sp) : WithTop ℚ) < st.2 then
    (some sp, (compute_diff_score submission (fsNb sp) : WithTop ℚ))
  else st

/-- `find_matching_starter` from src/app.py.  `fsNb` models
`nbformat.read`; `best_score` starts at `float('inf')`, modelled as `⊤`. -/
def find_matching_starter (fsNb : String → Notebook) (submission_path : String)
    (starter_paths : List String) : Option String × WithTop ℚ :=
  starter_paths.foldl (fmsStep (fsNb submission_path) fsNb) (none, ⊤)

end app

namespace starter_notebooks

/-- `notebook_to_quarto` from src/starter_notebooks.py (a verbatim copy of
the one in src/app.py). -/
def notebook_to_quarto (nb : Notebook) : String :=
  pyJoin "\n\n" (nb.cells.foldl (fun chunks cell =>
    if cell.cell_type = "markdown" then chunks ++ [cell.source]
    else if cell.cell_type = "code" then
      chunks ++ ["```\x7bpython\x7d\n" ++ cell.source ++ "\n```"]
    else chunks) [])

/-- The `StarterMatch` dataclass of src/starter_notebooks.py. -/
structure StarterMatch where
  starter : String
  revision : String
  ratio : ℚ
deriving DecidableEq

/-- One iteration of the inner `for rev, starter_quarto in rev_map.items()`
loop of `find_closest_starter`, with the `real_quick_ratio` early abort. -/
def fcsInner (nq : String) (name : String)
    (st : Option StarterMatch × ℚ) (p : String × String) :
    Option StarterMatch × ℚ :=
  if difflib.real_quick_ratio nq.data p.2.data ≤ st.2 then st
  else if difflib.ratio nq.data p.2.data ≤ st.2 then st
  else (some ⟨name, p.1, difflib.ratio nq.data p.2.data⟩,
    difflib.ratio nq.data p.2.data)

/-- `find_closest_starter` from src/starter_notebooks.py (dict iteration
order is insertion order, so the maps are association lists; the trailing
`assert best is not None` leaves the result an `Option`). -/
def find_closest_starter (nq : String)
    (versions : List (String × List (String × String))) : Option StarterMatch :=
  (versions.foldl (fun st v => v.2.foldl (fcsInner nq v.1) st) (none, -1)).1

/-- The inner update written without the `real_quick_ratio` early abort,
acting on a flattened `(starter, revision, quarto)` triple. -/
def fcsStepPure (nq : String) (st : Option StarterMatch × ℚ)
    (q : String × String × String) : Option StarterMatch × ℚ :=
  if difflib.ratio nq.data q.2.2.data ≤ st.2 then st
  else (some ⟨q.1, q.2.1, difflib.ratio nq.data q.2.2.data⟩,
    difflib.ratio nq.data q.2.2.data)

/-- Modelled from the spec: `find_closest_starter` as the spec describes it,
scoring every known revision of every starter with no early abort. -/
def find_closest_starter_spec (nq : String)
    (versions : List (String × List (String × String))) : Option StarterMatch :=
  (versions.foldl (fun st v =>
    v.2.foldl (fun st2 p => fcsStepPure nq st2 (v.1, p.1, p.2)) st) (none, -1)).1

/-- The `(starter, revision, quarto)` triples in iteration order. -/
def fcsPairs (versions : List (String × List (String × String))) :
    List (String × String × String) :=
  versions.foldr (fun v acc => (v.2.map fun p => (v.1, p.1, p.2)) ++ acc) []

/-- The ratio scored for one flattened triple. -/
def ratioOf (nq : String) (q : String × String × String) : ℚ :=
  difflib.ratio nq.data q.2.2.data

lemma fcsInner_eq_pure (nq name : String) (st : Option StarterMatch × ℚ)
    (p : String × String) :
    fcsInner nq name st p = fcsStepPure nq st (name, p.1, p.2) := by
  unfold fcsInner fcsStepPure
  by_cases h1 : difflib.real_quick_ratio nq.data p.2.data ≤ st.2
  · have h2 : difflib.ratio nq.data p.2.data ≤ st.2 :=
      le_trans (difflib.ratio_le_rqr nq.data p.2.data) h1
    simp [h1, h2]
  · simp [h1]

lemma foldl_fcsInner_flatten (nq : String) :
    ∀ (versions : List (String × List (String × String)))
      (st : Option StarterMatch × ℚ),
      versions.foldl (fun st v => v.2.foldl (fcsInner nq v.1) st) st =
      (fcsPairs versions).foldl (fcsStepPure nq) st := by
  intro versions
  induction versions with
  | nil => intro st; rfl
  | cons v versions ih =>
    intro st
    simp only [List.foldl_cons, fcsPairs, List.foldr_cons, List.foldl_append]
    have hinner : ∀ (l : List (String × String)) (st0 : Option StarterMatch × ℚ),
        l.foldl (fcsInner nq v.1) st0 =
        (l.map fun p => (v.1, p.1, p.2)).foldl (fcsStepPure nq) st0 := by
      intro l
      induction l with
      | nil => intro st0; rfl
      | cons p l ihl =>
        intro st0
        simp only [List.foldl_cons, List.map_cons, fcsInner_eq_pure]
        exact ihl _
    rw [hinner, ih]
    rfl

lemma fcs_foldl_char (nq : String) :
    ∀ (l : List (String × String × String)) (cur : Option StarterMatch) (br : ℚ),
      (l.foldl (fcsStepPure nq) (cur, br) = (cur, br) ∧
        ∀ q ∈ l, ratioOf nq q ≤ br) ∨
      (∃ idx q, l.get? idx = some q ∧
        l.foldl (fcsStepPure nq) (cur, br) =
          (some ⟨q.1, q.2.1, ratioOf nq q⟩, ratioOf nq q) ∧
        br < ratioOf nq q ∧
        (∀ p ∈ l, ratioOf nq p ≤ ratioOf nq q) ∧
        (∀ t p, t < idx → l.get? t = some p → ratioOf nq p < ratioOf nq q)) := by
  intro l
  induction l with
  | nil =>
    intro cur br
    left
    exact ⟨rfl, by simp⟩
  | cons q l ih =>
    intro cur br
    simp only [List.foldl_cons]
    by_cases hq : ratioOf nq q ≤ br
    · have hstep : fcsStepPure nq (cur, br) q = (cur, br) := by
        unfold fcsStepPure
        split
        · rfl
        · rename_i hcon
          exact absurd hq hcon
      rw [hstep]
      rcases ih cur br with ⟨heq, hall⟩ | ⟨idx, p, hget, heq, hlt, hmax, hfirst⟩
      · left
        refine ⟨heq, ?_⟩
        intro x hx
        rcases List.mem_cons.mp hx with hx | hx
        · rw [hx]; exact hq
        · exact hall x hx
      · right
        refine ⟨idx + 1, p, by simpa using hget, heq, hlt, ?_, ?_⟩
        · intro x hx
          rcases List.mem_cons.mp hx with hx | hx
          · rw [hx]; linarith
          · exact hmax x hx
        · intro t x ht hx
          match t with
          | 0 =>
            simp only [List.get?] at hx
            cases hx
            linarith
          | Nat.succ s =>
            exact hfirst s x (by omega) (by simpa using hx)
    · push_neg at hq
      have hstep : fcsStepPure nq (cur, br) q =
          (some ⟨q.1, q.2.1, ratioOf nq q⟩, ratioOf nq q) := by
        unfold fcsStepPure
        split
        · rename_i hcon
          exact absurd hcon (not_le.mpr hq)
        · rfl
      rw [hstep]
      rcases ih (some ⟨q.1, q.2.1, ratioOf nq q⟩) (ratioOf nq q) with
        ⟨heq, hall⟩ | ⟨idx, p, hget, heq, hlt, hmax, hfirst⟩
      · right
        refine ⟨0, q, rfl, heq, hq, ?_, ?_⟩
        · intro x hx
          rcases List.mem_cons.mp hx with hx | hx
          · rw [hx]
          · exact hall x hx
        · intro t x ht hx
          omega
      · right
        refine ⟨idx + 1, p, by simpa using hget, heq, by linarith, ?_, ?_⟩
        · intro x hx
          rcases List.mem_cons.mp hx with hx | hx
          · rw [hx]; linarith
          · exact hmax x hx
        · intro t x ht hx
          match t with
          | 0 =>
            simp only [List.get?] at hx
            cases hx
            linarith
          | Nat.succ s =>
            exact hfirst s x (by omega) (by simpa using hx)

end starter_notebooks

end Panopticon

namespace Panopticon.app

lemma fms_foldl_char (sub : Notebook) (fsNb : String → Notebook) :
    ∀ (l : List String) (cur : Option String) (bs : WithTop ℚ),
      (l.foldl (fmsStep sub fsNb) (cur, bs) = (cur, bs) ∧
        ∀ p ∈ l, bs ≤ (compute_diff_score sub (fsNb p) : WithTop ℚ)) ∨
      (∃ idx p, l.get? idx = some p ∧
        l.foldl (fmsStep sub fsNb) (cur, bs) =
          (some p, (compute_diff_score sub (fsNb p) : WithTop ℚ)) ∧
        (compute_diff_score sub (fsNb p) : WithTop ℚ) < bs ∧
        (∀ q ∈ l, compute_diff_score sub (fsNb p) ≤ compute_diff_score sub (fsNb q)) ∧
        (∀ t q, t < idx → l.get? t = some q →
          compute_diff_score sub (fsNb p) < compute_diff_score sub (fsNb q))) := by
  intro l
  induction l with
  | nil =>
    intro cur bs
    left
    exact ⟨rfl, by simp⟩
  | cons p l ih =>
    intro cur bs
    simp only [List.foldl_cons]
    by_cases hp : (compute_diff_score sub (fsNb p) : WithTop ℚ) < bs
    · have hstep : fmsStep sub fsNb (cur, bs) p =
          (some p, (compute_diff_score sub (fsNb p) : WithTop ℚ)) := by
        unfold fmsStep
        split
        · rfl
        · rename_i hcon
          exact absurd hp hcon
      rw [hstep]
      rcases ih (some p) (compute_diff_score sub (fsNb p) : WithTop ℚ) with
        ⟨heq, hall⟩ | ⟨idx, r, hget, heq, hlt, hmin, hfirst⟩
      · right
        refine ⟨0, p, rfl, heq, hp, ?_, ?_⟩
        · intro x hx
          rcases List.mem_cons.mp hx with hx | hx
          · rw [hx]
          · exact_mod_cast hall x hx
        · intro t x ht hx
          omega
      · right
        have hlt2 : compute_diff_score sub (fsNb r) < compute_diff_score sub (fsNb p) := by
          exact_mod_cast hlt
        refine ⟨idx + 1, r, by simpa using hget, heq, lt_trans hlt hp, ?_, ?_⟩
        · intro x hx
          rcases List.mem_cons.mp hx with hx | hx
          · rw [hx]; linarith
          · exact hmin x hx
        · intro t x ht hx
          match t with
          | 0 =>
            simp only [List.get?] at hx
            cases hx
            linarith
          | Nat.succ s =>
            exact hfirst s x (by omega) (by simpa using hx)
    · have hstep : fmsStep sub fsNb (cur, bs) p = (cur, bs) := by
        unfold fmsStep
        split
        · rename_i hcon
          exact absurd hcon hp
        · rfl
      rw [hstep]
      have hple : bs ≤ (compute_diff_score sub (fsNb p) : WithTop ℚ) := not_lt.mp hp
      rcases ih cur bs with ⟨heq, hall⟩ | ⟨idx, r, hget, heq, hlt, hmin, hfirst⟩
      · left
        refine ⟨heq, ?_⟩
        intro x hx
        rcases List.mem_cons.mp hx with hx | hx
        · rw [hx]; exact hple
        · exact hall x hx
      · right
        have hlt2 : compute_diff_score sub (fsNb r) < compute_diff_score sub (fsNb p) := by
          have := lt_of_lt_of_le hlt hple
          exact_mod_cast this
        refine ⟨idx + 1, r, by simpa using hget, heq, hlt, ?_, ?_⟩
        · intro x hx
          rcases List.mem_cons.mp hx with hx | hx
          · rw [hx]; linarith
          · exact hmin x hx
        · intro t x ht hx
          match t with
          | 0 =>
            simp only [List.get?] at hx
            cases hx
            linarith
          | Nat.succ s =>
            exact hfirst s x (by omega) (by simpa using hx)

/-- On a non-empty path list, `find_matching_starter` returns the first path
attaining the minimal `compute_diff_score`, together with that score. -/
lemma fms_result (fsNb : String → Notebook) (submission_path : String)
    (starter_paths : List String) (hne : starter_paths ≠ []) :
    ∃ p idx, find_matching_starter fsNb submission_path starter_paths =
        (some p, (compute_diff_score (fsNb submission_path) (fsNb p) : WithTop ℚ)) ∧
      starter_paths.get? idx = some p ∧
      (∀ q ∈ starter_paths,
        compute_diff_score (fsNb submission_path) (fsNb p) ≤
        compute_diff_score (fsNb submission_path) (fsNb q)) ∧
      (∀ t q, t < idx → starter_paths.get? t = some q →
        compute_diff_score (fsNb submission_path) (fsNb p) <
        compute_diff_score (fsNb submission_path) (fsNb q)) := by
  unfold find_matching_starter
  rcases fms_foldl_char (fsNb submission_path) fsNb starter_paths none ⊤ with
    ⟨heq, hall⟩ | ⟨idx, p, hget, heq, hlt, hmin, hfirst⟩
  · obtain ⟨x, hx⟩ := List.exists_mem_of_ne_nil starter_paths hne
    have := hall x hx
    exact absurd (top_le_iff.mp this) WithTop.coe_ne_top
  · exact ⟨p, idx, heq, hget, hmin, hfirst⟩

/-- The result value of `get_submission_and_starter`: an error message, the
`(submission, starter)` pair, or a crash marker for the unreachable branch
where `find_matching_starter` returns `None`. -/
inductive SubmissionResult where
  | err (msg : String)
  | ok (submission starter : Notebook)
  | crash
deriving DecidableEq

/-- `get_submission_and_starter` from src/app.py.  `fsNb` models
`nbformat.read`, `fexists` models `Path.exists`, and `glob` models
`STARTERS_DIR.glob` applied to a pattern. -/
def get_submission_and_starter (fsNb : String → Notebook)
    (fexists : String → Bool) (glob : String → List String)
    (student assignment : String) : SubmissionResult :=
  let submission_path := "data/submissions/" ++ assignment ++ "/" ++ student ++ ".ipynb"
  let starter_paths := glob (assignment ++ "*.ipynb")
  if fexists submission_path = false then .err "Submission not found"
  else if starter_paths = [] then .err "No starter notebook found"
  else
    match (find_matching_starter fsNb submission_path starter_paths).1 with
    | some best_starter => .ok (fsNb submission_path) (fsNb best_starter)
    | none => .crash

end Panopticon.app

namespace Panopticon

/-- The text a single cell contributes to the Quarto rendering (`none` for
cell types other than markdown and code). -/
def cellContribution (c : Cell) : Option String :=
  if c.cell_type = "markdown" then some c.source
  else if c.cell_type = "code" then
    some ("```\x7bpython\x7d\n" ++ c.source ++ "\n```")
  else none

/-- Whether a cell is rendered by `notebook_to_quarto` at all. -/
def isRendered (c : Cell) : Bool :=
  decide (c.cell_type = "markdown") || decide (c.cell_type = "code")

lemma quarto_chunks_eq_filterMap :
    ∀ (cells : List Cell) (acc : List String),
      cells.foldl (fun chunks cell =>
        if cell.cell_type = "markdown" then chunks ++ [cell.source]
        else if cell.cell_type = "code" then
          chunks ++ ["```\x7bpython\x7d\n" ++ cell.source ++ "\n```"]
        else chunks) acc = acc ++ cells.filterMap cellContribution := by
  intro cells
  induction cells with
  | nil => intro acc; simp
  | cons c cells ih =>
    intro acc
    simp only [List.foldl_cons, List.filterMap_cons]
    by_cases h1 : c.cell_type = "markdown"
    · have hc : cellContribution c = some c.source := by
        simp [cellContribution, h1]
      rw [if_pos h1, ih, hc]
      simp [List.append_assoc]
    · by_cases h2 : c.cell_type = "code"
      · have hc : cellContribution c =
            some ("```\x7bpython\x7d\n" ++ c.source ++ "\n```") := by
          simp [cellContribution, h1, h2]
        rw [if_neg h1, if_pos h2, ih, hc]
        simp [List.append_assoc]
      · have hc : cellContribution c = none := by
          simp [cellContribution, h1, h2]
        rw [if_neg h1, if_neg h2, ih, hc]

lemma cellContribution_eq_none_of_not_rendered {c : Cell}
    (h : isRendered c = false) : cellContribution c = none := by
  unfold isRendered at h
  unfold cellContribution
  simp only [Bool.or_eq_false_iff, decide_eq_false_iff_not] at h
  simp [h.1, h.2]

lemma filterMap_cellContribution_filter :
    ∀ (cells : List Cell),
      cells.filterMap cellContribution =
      (cells.filter isRendered).filterMap cellContribution := by
  intro cells
  induction cells with
  | nil => rfl
  | cons c cells ih =>
    by_cases h : isRendered c = true
    · simp only [List.filterMap_cons, List.filter_cons, h, if_true, ih]
    · have h0 : isRendered c = false := by simpa using h
      simp only [List.filterMap_cons, List.filter_cons, h0,
        cellContribution_eq_none_of_not_rendered h0, ih]
      simp

end Panopticon

namespace Panopticon.starter_notebooks

lemma foldl_pure_flatten (nq : String) :
    ∀ (versions : List (String × List (String × String)))
      (st : Option StarterMatch × ℚ),
      versions.foldl (fun st v =>
        v.2.foldl (fun st2 p => fcsStepPure nq st2 (v.1, p.1, p.2)) st) st =
      (fcsPairs versions).foldl (fcsStepPure nq) st := by
  intro versions
  induction versions with
  | nil => intro st; rfl
  | cons v versions ih =>
    intro st
    simp only [List.foldl_cons, fcsPairs, List.foldr_cons, List.foldl_append]
    have hinner : ∀ (l : List (String × String)) (st0 : Option StarterMatch × ℚ),
        l.foldl (fun st2 p => fcsStepPure nq st2 (v.1, p.1, p.2)) st0 =
        (l.map fun p => (v.1, p.1, p.2)).foldl (fcsStepPure nq) st0 := by
      intro l
      induction l with
      | nil => intro st0; rfl
      | cons p l ihl =>
        intro st0
        simp only [List.foldl_cons, List.map_cons]
        exact ihl _
    rw [hinner, ih]
    rfl

lemma fcsPairs_ne_nil {versions : List (String × List (String × String))}
    (hne : versions ≠ []) (hall : ∀ v ∈ versions, v.2 ≠ []) :
    fcsPairs versions ≠ [] := by
  match versions with
  | [] => exact absurd rfl hne
  | v :: rest =>
    have hv := hall v (by simp)
    simp only [fcsPairs, List.foldr_cons]
    intro hcon
    rcases List.append_eq_nil.mp hcon with ⟨h1, _⟩
    exact hv (List.map_eq_nil.mp h1)

/-- On non-empty input, `find_closest_starter` returns the first flattened
`(starter, revision, quarto)` triple attaining the maximal ratio. -/
lemma fcs_main (nq : String) (versions : List (String × List (String × String)))
    (hne : versions ≠ []) (hall : ∀ v ∈ versions, v.2 ≠ []) :
    ∃ m idx q, find_closest_starter nq versions = some m ∧
      (fcsPairs versions).get? idx = some q ∧
      m = ⟨q.1, q.2.1, ratioOf nq q⟩ ∧
      (∀ p ∈ fcsPairs versions, ratioOf nq p ≤ m.ratio) ∧
      (∀ t p, t < idx → (fcsPairs versions).get? t = some p →
        ratioOf nq p < m.ratio) := by
  unfold find_closest_starter
  rw [foldl_fcsInner_flatten]
  rcases fcs_foldl_char nq (fcsPairs versions) none (-1) with
    ⟨heq, hall2⟩ | ⟨idx, q, hget, heq, hlt, hmax, hfirst⟩
  · obtain ⟨x, hx⟩ := List.exists_mem_of_ne_nil _ (fcsPairs_ne_nil hne hall)
    have h0 : (0 : ℚ) ≤ ratioOf nq x := difflib.ratio_nonneg _ _
    have h1 := hall2 x hx
    linarith
  · refine ⟨⟨q.1, q.2.1, ratioOf nq q⟩, idx, q, ?_, hget, rfl, hmax, hfirst⟩
    rw [heq]

/-- The early abort is harmless: the loop with the `real_quick_ratio` check
computes the same result as the spec-level loop without it. -/
lemma fcs_eq_spec (nq : String) (versions : List (String × List (String × String))) :
    find_closest_starter nq versions = find_closest_starter_spec nq versions := by
  unfold find_closest_starter find_closest_starter_spec
  rw [foldl_fcsInner_flatten, foldl_pure_flatten]

/-- Any match ever returned carries a ratio computed by `difflib.ratio`,
hence one in the unit interval. -/
lemma fcs_some_ratio_bounds (nq : String)
    (versions : List (String × List (String × String))) (m : StarterMatch)
    (h : find_closest_starter nq versions = some m) :
    0 ≤ m.ratio ∧ m.ratio ≤ 1 := by
  unfold find_closest_starter at h
  rw [foldl_fcsInner_flatten] at h
  rcases fcs_foldl_char nq (fcsPairs versions) none (-1) with
    ⟨heq, _⟩ | ⟨idx, q, hget, heq, _, _, _⟩
  · rw [heq] at h
    simp at h
  · rw [heq] at h
    simp only [Option.some.injEq] at h
    rw [← h]
    exact ⟨difflib.ratio_nonneg _ _, difflib.ratio_le_one _ _⟩

end Panopticon.starter_notebooks

namespace Panopticon

open starter_notebooks in
/-- C1: on a non-empty map of starters to non-empty revision maps,
`find_closest_starter` returns the `(starter, revision)` pair attaining the
maximum `SequenceMatcher` ratio against the notebook text, the
`real_quick_ratio` early abort never skips a strictly better revision (the
loop equals the abort-free loop), and ties keep the first-encountered pair
in iteration order. -/
theorem C1_find_closest_starter_argmax (nq : String)
    (versions : List (String × List (String × String)))
    (hne : versions ≠ []) (hall : ∀ v ∈ versions, v.2 ≠ []) :
    find_closest_starter nq versions = find_closest_starter_spec nq versions ∧
    ∃ m idx q, find_closest_starter nq versions = some m ∧
      (fcsPairs versions).get? idx = some q ∧
      m = ⟨q.1, q.2.1, ratioOf nq q⟩ ∧
      (∀ p ∈ fcsPairs versions, ratioOf nq p ≤ m.ratio) ∧
      (∀ t p, t < idx → (fcsPairs versions).get? t = some p →
        ratioOf nq p < m.ratio) :=
  ⟨starter_notebooks.fcs_eq_spec nq versions,
   starter_notebooks.fcs_main nq versions hne hall⟩

/-- Witness for C1 at a concrete one-starter, one-revision input. -/
theorem C1_witness :
    (([("a", [("r", "x")])] : List (String × List (String × String))) ≠ [] ∧
      ∀ v ∈ ([("a", [("r", "x")])] : List (String × List (String × String))),
        v.2 ≠ []) ∧
    ∃ m, starter_notebooks.find_closest_starter "x" [("a", [("r", "x")])] =
      some m := by
  refine ⟨⟨by decide, by decide⟩, ?_⟩
  obtain ⟨-, m, idx, q, hm, -⟩ :=
    C1_find_closest_starter_argmax "x" [("a", [("r", "x")])]
      (by decide) (by decide)
  exact ⟨m, hm⟩

/-- C2: on a non-empty starter list, `find_matching_starter` returns the
first path attaining the minimal `compute_diff_score` (equivalently the
maximal `SequenceMatcher` ratio of the joined cell sources), together with
that score. -/
theorem C2_find_matching_starter_argmin (fsNb : String → Notebook)
    (submission_path : String) (starter_paths : List String)
    (hne : starter_paths ≠ []) :
    ∃ p idx,
      app.find_matching_starter fsNb submission_path starter_paths =
        (some p,
          (app.compute_diff_score (fsNb submission_path) (fsNb p) : WithTop ℚ)) ∧
      starter_paths.get? idx = some p ∧
      (∀ q ∈ starter_paths,
        app.compute_diff_score (fsNb submission_path) (fsNb p) ≤
        app.compute_diff_score (fsNb submission_path) (fsNb q)) ∧
      (∀ q ∈ starter_paths,
        difflib.ratio (app.cellSourcesJoined (fsNb submission_path)).data
          (app.cellSourcesJoined (fsNb q)).data ≤
        difflib.ratio (app.cellSourcesJoined (fsNb submission_path)).data
          (app.cellSourcesJoined (fsNb p)).data) ∧
      (∀ t q, t < idx → starter_paths.get? t = some q →
        app.compute_diff_score (fsNb submission_path) (fsNb p) <
        app.compute_diff_score (fsNb submission_path) (fsNb q)) := by
  obtain ⟨p, idx, h1, h2, h3, h4⟩ :=
    app.fms_result fsNb submission_path starter_paths hne
  refine ⟨p, idx, h1, h2, h3, ?_, h4⟩
  intro q hq
  have hle := h3 q hq
  unfold app.compute_diff_score at hle
  linarith

/-- Witness for C2 at a concrete one-path input. -/
theorem C2_witness :
    (["s1"] : List String) ≠ [] ∧
    ∃ p idx,
      app.find_matching_starter (fun _ => ⟨[]⟩) "sub" ["s1"] =
        (some p,
          (app.compute_diff_score ((fun (_ : String) => (⟨[]⟩ : Notebook)) "sub")
            ((fun (_ : String) => (⟨[]⟩ : Notebook)) p) : WithTop ℚ)) ∧
      (["s1"] : List String).get? idx = some p := by
  refine ⟨by decide, ?_⟩
  obtain ⟨p, idx, h1, h2, -⟩ :=
    C2_find_matching_starter_argmin (fun _ => ⟨[]⟩) "sub" ["s1"] (by decide)
  exact ⟨p, idx, h1, h2⟩

/-- C3: `compute_diff_score` always lies in `[0, 1]`, and any
`StarterMatch` returned by `find_closest_starter` has its ratio in
`[0, 1]`. -/
theorem C3_ratio_unit_interval :
    (∀ submission starter : Notebook,
      0 ≤ app.compute_diff_score submission starter ∧
      app.compute_diff_score submission starter ≤ 1) ∧
    (∀ (nq : String) (versions : List (String × List (String × String)))
      (m : starter_notebooks.StarterMatch),
      starter_notebooks.find_closest_starter nq versions = some m →
      0 ≤ m.ratio ∧ m.ratio ≤ 1) := by
  constructor
  · intro sub st
    unfold app.compute_diff_score
    have h1 := difflib.ratio_nonneg (app.cellSourcesJoined sub).data
      (app.cellSourcesJoined st).data
    have h2 := difflib.ratio_le_one (app.cellSourcesJoined sub).data
      (app.cellSourcesJoined st).data
    constructor <;> linarith
  · intro nq versions m h
    exact starter_notebooks.fcs_some_ratio_bounds nq versions m h

lemma ratio_x_x : difflib.ratio ['x'] ['x'] = 1 := by
  have hm : difflib.get_matching_blocks ['x'] ['x'] =
      [(0, 0, 1), (1, 1, 0)] := by decide
  unfold difflib.ratio
  rw [hm]
  norm_num [difflib.sumK]

lemma rqr_x_x : difflib.real_quick_ratio ['x'] ['x'] = 1 := by
  unfold difflib.real_quick_ratio
  norm_num

lemma fcs_eval_x :
    starter_notebooks.find_closest_starter "x" [("a", [("r", "x")])] =
      some ⟨"a", "r", 1⟩ := by
  unfold starter_notebooks.find_closest_starter
  simp only [List.foldl_cons, List.foldl_nil, starter_notebooks.fcsInner,
    rqr_x_x, ratio_x_x]
  norm_num

/-- Witness for C3 at a concrete input where the returned match is
evaluated. -/
theorem C3_witness :
    starter_notebooks.find_closest_starter "x" [("a", [("r", "x")])] =
      some ⟨"a", "r", 1⟩ ∧
    (0 ≤ (⟨"a", "r", 1⟩ : starter_notebooks.StarterMatch).ratio ∧
      (⟨"a", "r", 1⟩ : starter_notebooks.StarterMatch).ratio ≤ 1) := by
  have h := fcs_eval_x
  exact ⟨h, C3_ratio_unit_interval.2 "x" [("a", [("r", "x")])] ⟨"a", "r", 1⟩ h⟩

/-- C5: both copies of `notebook_to_quarto` compute the same function, and
that function renders the cells in order (markdown verbatim, code fenced,
others skipped) joined by exactly one blank line. -/
theorem C5_notebook_to_quarto_linearization (nb : Notebook) :
    app.notebook_to_quarto nb = starter_notebooks.notebook_to_quarto nb ∧
    app.notebook_to_quarto nb =
      pyJoin "\n\n" (nb.cells.filterMap cellContribution) := by
  refine ⟨rfl, ?_⟩
  unfold app.notebook_to_quarto
  rw [quarto_chunks_eq_filterMap, List.nil_append]

/-- C10: cells whose type is neither markdown nor code contribute nothing:
notebooks agreeing on their rendered cells produce identical Quarto text,
and removing such a cell leaves the Quarto text unchanged. -/
theorem C10_non_rendered_cells_omitted (nb1 nb2 : Notebook)
    (xs ys : List Cell) (c : Cell)
    (h : nb1.cells.filter isRendered = nb2.cells.filter isRendered)
    (hc : isRendered c = false) :
    app.notebook_to_quarto nb1 = app.notebook_to_quarto nb2 ∧
    app.notebook_to_quarto ⟨xs ++ c :: ys⟩ = app.notebook_to_quarto ⟨xs ++ ys⟩ := by
  have key : ∀ nbA nbB : Notebook,
      nbA.cells.filter isRendered = nbB.cells.filter isRendered →
      app.notebook_to_quarto nbA = app.notebook_to_quarto nbB := by
    intro nbA nbB hAB
    unfold app.notebook_to_quarto
    rw [quarto_chunks_eq_filterMap, quarto_chunks_eq_filterMap,
      filterMap_cellContribution_filter, hAB,
      ← filterMap_cellContribution_filter]
  refine ⟨key nb1 nb2 h, key ⟨xs ++ c :: ys⟩ ⟨xs ++ ys⟩ ?_⟩
  simp only [List.filter_append, List.filter_cons, hc]
  simp

/-- Witness for C10: a raw cell is dropped from the rendering. -/
theorem C10_witness :
    ((⟨[⟨"raw", "z"⟩]⟩ : Notebook).cells.filter isRendered =
      (⟨[]⟩ : Notebook).cells.filter isRendered) ∧
    isRendered ⟨"raw", "z"⟩ = false ∧
    app.notebook_to_quarto ⟨[⟨"raw", "z"⟩]⟩ = app.notebook_to_quarto ⟨[]⟩ := by
  refine ⟨by decide, by decide, ?_⟩
  exact (C10_non_rendered_cells_omitted ⟨[⟨"raw", "z"⟩]⟩ ⟨[]⟩ [] [] ⟨"raw", "z"⟩
    (by decide) (by decide)).1

end Panopticon

namespace Panopticon.app

namespace generate_diff_html

/-- The nested `format_chunk` of `generate_diff_html` in src/app.py:
empty slices give the empty string, otherwise the newline-joined slice is
HTML-escaped. -/
def format_chunk (lines : List String) (start stop : Nat) : String :=
  if (lines.drop start).take (stop - start) = [] then ""
  else escapeHtml (pyJoin "\n" ((lines.drop start).take (stop - start)))

/-- The `lines_html` list comprehension inside `format_lines`: one
`<div class="line">` per `'\n'`-split component; an empty text yields no
divs because `format_lines` returns early. -/
def lines_html (lines : String) : List String :=
  if lines = "" then []
  else (pySplitOnNl lines).map fun line => "<div class=\"line\">" ++ line ++ "</div>"

/-- The nested `format_lines` of `generate_diff_html`. -/
def format_lines (lines : String) (cls : String) : String :=
  if lines = "" then ""
  else "<div class=\"" ++ cls ++ "\">" ++ String.join (lines_html lines) ++ "</div>"

/-- The changed-content row appended for a `replace`, `delete` or `insert`
opcode: each side as `(text, css class)` before `format_lines` is applied
(`none` for the other tags). -/
def changedRowSides (a_lines b_lines : List String) (tag : String)
    (i1 i2 j1 j2 : Nat) : Option ((String × String) × (String × String)) :=
  if tag = "replace" then
    let left_chunk := format_chunk a_lines i1 i2
    let right_chunk := format_chunk b_lines j1 j2
    let left_lines := pySplitOnNl left_chunk
    let right_lines := pySplitOnNl right_chunk
    let max_lines := max left_lines.length right_lines.length
    let left_padded := left_lines ++ List.replicate (max_lines - left_lines.length) ""
    let right_padded := right_lines ++ List.replicate (max_lines - right_lines.length) ""
    some ((pyJoin "\n" left_padded, "diff-delete"),
          (pyJoin "\n" right_padded, "diff-insert"))
  else if tag = "delete" then
    let left_chunk := format_chunk a_lines i1 i2
    let blank_lines := List.replicate (pySplitOnNl left_chunk).length ""
    some ((left_chunk, "diff-delete"), (pyJoin "\n" blank_lines, ""))
  else if tag = "insert" then
    let right_chunk := format_chunk b_lines j1 j2
    let blank_lines := List.replicate (pySplitOnNl right_chunk).length ""
    some ((pyJoin "\n" blank_lines, ""), (right_chunk, "diff-insert"))
  else none

/-- The `custom_css` literal of `generate_diff_html`. -/
def custom_css : String :=
  "\n        .diff-container \x7b\n            display: grid;\n            grid-template-columns: 1fr 1fr;\n            gap: 0.5rem;\n            font-size: 14px;\n            font-family: monospace;\n        \x7d\n        .diff-pane \x7b\n            border: 1px solid #ddd;\n            padding: 1rem;\n            white-space: pre;\n            overflow-x: auto;\n        \x7d\n        .line \x7b\n            min-height: 1.2em;\n            white-space: pre;\n            overflow-x: visible;\n        \x7d\n        .diff-delete \x7b background-color: #ffe6e6; \x7d\n        .diff-insert \x7b background-color: #e6ffe6; \x7d\n        .ellipsis \x7b\n            text-align: center;\n            color: #666;\n            padding: 0.2em;\n            background: #f0f0f0;\n        \x7d\n    "

/-- One iteration of the `for tag, i1, i2, j1, j2 in s.get_opcodes()` loop:
the state is `(last_i2, last_j2)` with the accumulated row list. -/
def opcodeStep (a_lines b_lines : List String)
    (st : (Nat × Nat) × List (String × String))
    (op : String × Nat × Nat × Nat × Nat) :
    (Nat × Nat) × List (String × String) :=
  let last_i2 := st.1.1
  let last_j2 := st.1.2
  let tag := op.1
  let i1 := op.2.1
  let i2 := op.2.2.1
  let j1 := op.2.2.2.1
  let j2 := op.2.2.2.2
  let i_start := max (i1 - 3) last_i2
  let j_start := max (j1 - 3) last_j2
  let rows := if last_i2 < i_start ∨ last_j2 < j_start then
      st.2 ++ [("<div class=\"ellipsis\">...</div>",
                "<div class=\"ellipsis\">...</div>")]
    else st.2
  let context_left := format_chunk a_lines i_start i1
  let context_right := format_chunk b_lines j_start j1
  let rows := if context_left ≠ "" ∨ context_right ≠ "" then
      rows ++ [(format_lines context_left "", format_lines context_right "")]
    else rows
  let rows :=
    match changedRowSides a_lines b_lines tag i1 i2 j1 j2 with
    | some sides =>
      rows ++ [(format_lines sides.1.1 sides.1.2, format_lines sides.2.1 sides.2.2)]
    | none =>
      if tag = "equal" then
        rows ++ [(format_lines (format_chunk a_lines i1 i2) "",
                  format_lines (format_chunk b_lines j1 j2) "")]
      else rows
  ((i2, j2), rows)

end generate_diff_html

/-- `generate_diff_html` from src/app.py: a side-by-side two-pane HTML diff
(`context_lines = 3`). -/
def generate_diff_html (a b : String) : String :=
  let a_lines := pySplitlines a
  let b_lines := pySplitlines b
  let rows := ((difflib.get_opcodes a_lines b_lines).foldl
    (generate_diff_html.opcodeStep a_lines b_lines) ((0, 0), [])).2
  "\n    <style>" ++ generate_diff_html.custom_css ++ "</style>\n    <div class=\"diff-container\">\n        <div class=\"diff-pane\">\n            <h3>Starter</h3>\n            " ++
  String.join (rows.map fun r => r.1) ++
  "\n        </div>\n        <div class=\"diff-pane\">\n            <h3>Submission</h3>\n            " ++
  String.join (rows.map fun r => r.2) ++
  "\n        </div>\n    </div>\n    "

namespace generate_unified_diff_html

/-- The nested `format_chunk` of `generate_unified_diff_html` in src/app.py
(a verbatim copy of the one in `generate_diff_html`). -/
def format_chunk (lines : List String) (start stop : Nat) : String :=
  if (lines.drop start).take (stop - start) = [] then ""
  else escapeHtml (pyJoin "\n" ((lines.drop start).take (stop - start)))

/-- The `custom_css` literal of `generate_unified_diff_html`. -/
def custom_css : String :=
  "\n        .equal \x7b background-color: white; font-size: 6px; \x7d\n        .delete \x7b background-color: #ffe6e6; \x7d\n        .insert \x7b background-color: #e6ffe6; \x7d\n        .diff-container \x7b font-size: 10px; font-family: monospace; white-space: pre-line; overflow-x: auto; \x7d\n    "

/-- One iteration of the opcode loop of `generate_unified_diff_html`. -/
def opcodeStep (a_lines b_lines : List String) (acc : String)
    (op : String × Nat × Nat × Nat × Nat) : String :=
  let tag := op.1
  let i1 := op.2.1
  let i2 := op.2.2.1
  let j1 := op.2.2.2.1
  let j2 := op.2.2.2.2
  if tag = "equal" then
    acc ++ "<div class=\"equal\">" ++ format_chunk a_lines i1 i2 ++ "</div>"
  else
    let acc := if tag = "replace" ∨ tag = "delete" then
        acc ++ "<div class=\"delete\">" ++ format_chunk a_lines i1 i2 ++ "</div>"
      else acc
    if tag = "replace" ∨ tag = "insert" then
      acc ++ "<div class=\"insert\">" ++ format_chunk b_lines j1 j2 ++ "</div>"
    else acc

end generate_unified_diff_html

/-- `generate_unified_diff_html` from src/app.py: a unified single-pane
HTML diff. -/
def generate_unified_diff_html (a b : String) : String :=
  let a_lines := pySplitlines a
  let b_lines := pySplitlines b
  let ops := difflib.get_opcodes a_lines b_lines
  let html_out := ops.foldl (generate_unified_diff_html.opcodeStep a_lines b_lines) ""
  "\n    <style>" ++ generate_unified_diff_html.custom_css ++
  "</style>\n    <div class=\"diff-container\">\n    <div class=\"diff-pane\">\n" ++
  html_out ++ "\n</div>\n    </div>\n    "

end Panopticon.app

namespace Panopticon.rubric_analysis

/-- The exceptions relevant to the `try` block of `do_rubric_check`:
`ValueError("Response is None")`, pydantic's `ValidationError` (what
`model_validate_json` raises on invalid JSON or schema mismatch), and
`json.JSONDecodeError` (named by the first `except` clause; pydantic does
not raise it). -/
inductive PyExc where
  | valueError (msg : String)
  | validationError
  | jsonDecodeError
deriving DecidableEq

/-- Which exceptions the `except json.JSONDecodeError` clause catches
(`ValidationError` and `ValueError` are not `JSONDecodeError`s). -/
def isJSONDecodeError : PyExc → Bool
  | .jsonDecodeError => true
  | _ => false

/-- The `RubricItemResponse` pydantic model (status is one of `"pass"`,
`"not yet"`, `"not applicable"`). -/
structure RubricItemResponse where
  item : String
  status : String
  comment : String
deriving DecidableEq

/-- The `RubricResponse` pydantic model. -/
structure RubricResponse where
  item_responses : List RubricItemResponse
  possible_issues : List String
  other_comments : String
deriving DecidableEq

/-- The `status_to_emoji` dict lookup with default `"❓"`. -/
def status_to_emoji (st : String) : String :=
  if st = "pass" then "✅"
  else if st = "not yet" then "❌"
  else if st = "not applicable" then "⏳"
  else "❓"

/-- The markdown accumulation at the end of `do_rubric_check`. -/
def renderRubricMarkdown (rc : RubricResponse) : String :=
  let md := rc.item_responses.foldl (fun md item =>
    let md := md ++ "- " ++ status_to_emoji item.status ++ " **" ++
      item.item ++ "**\n"
    if item.comment ≠ "" then md ++ "  - " ++ item.comment ++ "\n" else md) ""
  let md := if rc.possible_issues ≠ [] then
      rc.possible_issues.foldl (fun md issue => md ++ "- " ++ issue ++ "\n")
        (md ++ "\n### Possible Issues\n")
    else md
  if rc.other_comments ≠ "" then
    md ++ "\n### Other Comments\n" ++ rc.other_comments ++ "\n"
  else md

/-- Observable outcome of `do_rubric_check` after the model call:
either the rubric markdown is rendered (`st.markdown`), or errors were
surfaced (`st.error`, possibly with the raw response) and the function
returned, or the `except json.JSONDecodeError` clause fell through with
`rubric_check` unbound and the function crashed with a `NameError`. -/
inductive RubricOutcome where
  | rendered (md : String)
  | errored (msgs : List String)
  | crashed (msgs : List String)
deriving DecidableEq

/-- `do_rubric_check` from src/rubric_analysis.py, modelled from the
response on: the hosted-model call happens exactly once before the `try`
block, so the response text is an input; `validate` models
`RubricResponse.model_validate_json`.  A `None` text raises
`ValueError("Response is None")`, which the `except Exception` clause
catches (surfacing the error, echoing the raw response and returning);
a validation failure raising a `JSONDecodeError` would be caught by the
first clause, which surfaces the error but does not return, so control
falls through to `rubric_check.item_responses` with `rubric_check` unbound
and the call crashes; any other failure is caught by `except Exception`. -/
def do_rubric_check (validate : String → Except PyExc RubricResponse)
    (responseText : Option String) : RubricOutcome :=
  match responseText with
  | none =>
    RubricOutcome.errored ["Error parsing rubric response: Response is None"]
  | some t =>
    match validate t with
    | Except.error e =>
      if isJSONDecodeError e then
        RubricOutcome.crashed ["Error parsing rubric response"]
      else
        RubricOutcome.errored ["Error parsing rubric response"]
    | Except.ok rc => RubricOutcome.rendered (renderRubricMarkdown rc)

end Panopticon.rubric_analysis

namespace Panopticon

/-- The ambient state visible to the embedded functions: the stdout stream
(the only state `find_closest_starter` touches, through `print`), plus the
filesystem and the UI session state, which none of the claimed-stateless
functions read or write. -/
structure World where
  stdout : List String
  filesystem : String → Option String
  session_state : List (String × String)

/-- The stdout lines `find_closest_starter` prints: one header plus one
`Comparing <name> at <rev>` line per revision (printed before the early
abort is evaluated). -/
def fcsPrinted (versions : List (String × List (String × String))) : List String :=
  "Find closest starter notebook" ::
    (starter_notebooks.fcsPairs versions).map fun q =>
      "Comparing " ++ q.1 ++ " at " ++ q.2.1

/-- `find_closest_starter` as a state transformer over `World`, threading
its `print` calls through `stdout`. -/
def find_closest_starter_run (nq : String)
    (versions : List (String × List (String × String))) (w : World) :
    Option starter_notebooks.StarterMatch × World :=
  let res := versions.foldl
    (fun (st : (Option starter_notebooks.StarterMatch × ℚ) × List String) v =>
      v.2.foldl (fun st2 p =>
        (starter_notebooks.fcsInner nq v.1 st2.1 p,
         st2.2 ++ ["Comparing " ++ v.1 ++ " at " ++ p.1])) st)
    ((none, -1), w.stdout ++ ["Find closest starter notebook"])
  (res.1.1, { w with stdout := res.2 })

/-- `compute_diff_score` as a (trivial) state transformer: it touches no
ambient state. -/
def compute_diff_score_run (x y : Notebook) (w : World) : ℚ × World :=
  (app.compute_diff_score x y, w)

/-- `notebook_to_quarto` as a (trivial) state transformer. -/
def notebook_to_quarto_run (nb : Notebook) (w : World) : String × World :=
  (app.notebook_to_quarto nb, w)

/-- `generate_diff_html` as a (trivial) state transformer. -/
def generate_diff_html_run (a b : String) (w : World) : String × World :=
  (app.generate_diff_html a b, w)

/-- `generate_unified_diff_html` as a (trivial) state transformer. -/
def generate_unified_diff_html_run (a b : String) (w : World) : String × World :=
  (app.generate_unified_diff_html a b, w)

end Panopticon

namespace Panopticon

/-- C4: `get_submission_and_starter` returns "Submission not found" exactly
when the submission file `data/submissions/<assignment>/<student>.ipynb`
does not exist; given it exists, it returns "No starter notebook found"
exactly when the glob for `<assignment>*.ipynb` is empty; otherwise it
returns the `(submission, best-matching starter)` pair, in one pass with no
retry. -/
theorem C4_get_submission_and_starter (fsNb : String → Notebook)
    (fexists : String → Bool) (glob : String → List String)
    (student assignment : String) :
    (app.get_submission_and_starter fsNb fexists glob student assignment =
        .err "Submission not found" ↔
      fexists ("data/submissions/" ++ assignment ++ "/" ++ student ++ ".ipynb")
        = false) ∧
    (fexists ("data/submissions/" ++ assignment ++ "/" ++ student ++ ".ipynb")
        = true →
      (app.get_submission_and_starter fsNb fexists glob student assignment =
          .err "No starter notebook found" ↔
        glob (assignment ++ "*.ipynb") = [])) ∧
    (fexists ("data/submissions/" ++ assignment ++ "/" ++ student ++ ".ipynb")
        = true →
      glob (assignment ++ "*.ipynb") ≠ [] →
      ∃ best,
        (app.find_matching_starter fsNb
          ("data/submissions/" ++ assignment ++ "/" ++ student ++ ".ipynb")
          (glob (assignment ++ "*.ipynb"))).1 = some best ∧
        app.get_submission_and_starter fsNb fexists glob student assignment =
          .ok (fsNb ("data/submissions/" ++ assignment ++ "/" ++ student ++
            ".ipynb")) (fsNb best)) := by
  unfold app.get_submission_and_starter
  by_cases hex : fexists ("data/submissions/" ++ assignment ++ "/" ++ student ++
      ".ipynb") = false
  · rw [if_pos hex]
    refine ⟨⟨fun _ => hex, fun _ => rfl⟩, ?_, ?_⟩
    · intro htrue
      rw [htrue] at hex
      cases hex
    · intro htrue
      rw [htrue] at hex
      cases hex
  · rw [if_neg hex]
    have hex' : fexists ("data/submissions/" ++ assignment ++ "/" ++ student ++
        ".ipynb") = true := by
      cases h : fexists ("data/submissions/" ++ assignment ++ "/" ++ student ++
          ".ipynb")
      · exact absurd h hex
      · rfl
    by_cases hg : glob (assignment ++ "*.ipynb") = []
    · rw [if_pos hg]
      refine ⟨⟨fun h => ?_, fun h => ?_⟩, fun _ => ⟨fun _ => hg, fun _ => rfl⟩,
        fun _ hne => absurd hg hne⟩
      · injection h with hmsg
        exact absurd hmsg (by decide)
      · exact absurd h hex
    · rw [if_neg hg]
      obtain ⟨p, idx, h1, h2, h3, h4⟩ := app.fms_result fsNb
        ("data/submissions/" ++ assignment ++ "/" ++ student ++ ".ipynb")
        (glob (assignment ++ "*.ipynb")) hg
      have h1' : (app.find_matching_starter fsNb
          ("data/submissions/" ++ assignment ++ "/" ++ student ++ ".ipynb")
          (glob (assignment ++ "*.ipynb"))).1 = some p := by
        rw [h1]
      rw [h1']
      refine ⟨⟨fun h => app.SubmissionResult.noConfusion h, fun h => absurd h hex⟩,
        fun _ => ⟨fun h => app.SubmissionResult.noConfusion h, fun h => absurd h hg⟩,
        fun _ _ => ⟨p, rfl, rfl⟩⟩

/-- Witness for C4: a filesystem where both the submission and one starter
exist. -/
theorem C4_witness :
    ((fun (_ : String) => true) ("data/submissions/as/st.ipynb") = true) ∧
    ((fun (_ : String) => ["s1"]) ("as*.ipynb") ≠ ([] : List String)) ∧
    ∃ best,
      (app.find_matching_starter (fun _ => ⟨[]⟩) "data/submissions/as/st.ipynb"
        ["s1"]).1 = some best ∧
      app.get_submission_and_starter (fun _ => ⟨[]⟩) (fun _ => true)
        (fun _ => ["s1"]) "st" "as" = .ok ⟨[]⟩ ⟨[]⟩ := by
  refine ⟨rfl, by decide, ?_⟩
  exact (C4_get_submission_and_starter (fun _ => ⟨[]⟩) (fun _ => true)
    (fun _ => ["s1"]) "st" "as").2.2 rfl (by decide)

open rubric_analysis in
/-- C6: whenever the model response fails to parse (text `None` or failed
validation), `do_rubric_check` surfaces an error to the UI and returns
without rendering rubric markdown and without a second model call (the call
happens once, before the `try` block); no parse-failure path reaches the
rendering code, given that pydantic's `model_validate_json` raises
`ValidationError` rather than `json.JSONDecodeError`. -/
theorem C6_parse_failure_surfaces_error
    (validate : String → Except PyExc RubricResponse)
    (hpydantic : ∀ t e, validate t = Except.error e → isJSONDecodeError e = false)
    (responseText : Option String)
    (hfail : responseText = none ∨
      ∃ t e, responseText = some t ∧ validate t = Except.error e) :
    ∃ msgs, do_rubric_check validate responseText = .errored msgs ∧
      msgs ≠ [] ∧
      ∀ md, do_rubric_check validate responseText ≠ .rendered md := by
  rcases hfail with h | ⟨t, e, ht, he⟩
  · subst h
    exact ⟨["Error parsing rubric response: Response is None"], rfl, by decide,
      fun md h => by cases h⟩
  · subst ht
    have hj := hpydantic t e he
    have hred : do_rubric_check validate (some t) =
        match validate t with
        | Except.error e =>
          if isJSONDecodeError e then
            RubricOutcome.crashed ["Error parsing rubric response"]
          else
            RubricOutcome.errored ["Error parsing rubric response"]
        | Except.ok rc => RubricOutcome.rendered (renderRubricMarkdown rc) := rfl
    refine ⟨["Error parsing rubric response"], ?_, by decide, ?_⟩
    · rw [hred, he]
      show (if isJSONDecodeError e = true then
          RubricOutcome.crashed ["Error parsing rubric response"]
        else RubricOutcome.errored ["Error parsing rubric response"]) =
        RubricOutcome.errored ["Error parsing rubric response"]
      rw [hj]
      simp
    · intro md hcon
      rw [hred, he] at hcon
      have hcon2 : (if isJSONDecodeError e = true then
          RubricOutcome.crashed ["Error parsing rubric response"]
        else RubricOutcome.errored ["Error parsing rubric response"]) =
          RubricOutcome.rendered md := hcon
      rw [hj] at hcon2
      simp at hcon2

open rubric_analysis in
/-- Witness for C6 at a concrete failing validation. -/
theorem C6_witness :
    (∀ t e, (fun (_ : String) =>
        (Except.error PyExc.validationError : Except PyExc RubricResponse)) t =
        Except.error e → isJSONDecodeError e = false) ∧
    ∃ msgs, do_rubric_check
        (fun _ => (Except.error PyExc.validationError : Except PyExc RubricResponse))
        (some "bad") = .errored msgs ∧ msgs ≠ [] ∧
      ∀ md, do_rubric_check
        (fun _ => (Except.error PyExc.validationError : Except PyExc RubricResponse))
        (some "bad") ≠ .rendered md := by
  have hpv : ∀ t e, (fun (_ : String) =>
      (Except.error PyExc.validationError : Except PyExc RubricResponse)) t =
      Except.error e → isJSONDecodeError e = false := by
    intro t e h
    injection h with h2
    rw [← h2]
    rfl
  exact ⟨hpv, C6_parse_failure_surfaces_error _ hpv (some "bad")
    (Or.inr ⟨"bad", PyExc.validationError, rfl, rfl⟩)⟩

lemma fcs_run_split (nq : String) :
    ∀ (versions : List (String × List (String × String)))
      (st : Option starter_notebooks.StarterMatch × ℚ) (out : List String),
      versions.foldl
        (fun (st2 : (Option starter_notebooks.StarterMatch × ℚ) × List String) v =>
          v.2.foldl (fun s p =>
            (starter_notebooks.fcsInner nq v.1 s.1 p,
             s.2 ++ ["Comparing " ++ v.1 ++ " at " ++ p.1])) st2) (st, out) =
      (versions.foldl (fun s v => v.2.foldl (starter_notebooks.fcsInner nq v.1) s) st,
       out ++ (starter_notebooks.fcsPairs versions).map fun q =>
         "Comparing " ++ q.1 ++ " at " ++ q.2.1) := by
  intro versions
  induction versions with
  | nil =>
    intro st out
    simp [starter_notebooks.fcsPairs]
  | cons v versions ih =>
    intro st out
    have hinner : ∀ (l : List (String × String))
        (st0 : Option starter_notebooks.StarterMatch × ℚ) (out0 : List String),
        l.foldl (fun s p =>
          (starter_notebooks.fcsInner nq v.1 s.1 p,
           s.2 ++ ["Comparing " ++ v.1 ++ " at " ++ p.1])) (st0, out0) =
        (l.foldl (starter_notebooks.fcsInner nq v.1) st0,
         out0 ++ l.map fun p => "Comparing " ++ v.1 ++ " at " ++ p.1) := by
      intro l
      induction l with
      | nil => intro st0 out0; simp
      | cons p l ihl =>
        intro st0 out0
        simp only [List.foldl_cons, List.map_cons]
        rw [ihl]
        simp
    simp only [List.foldl_cons]
    rw [hinner, ih]
    simp only [starter_notebooks.fcsPairs, List.foldr_cons, List.map_append,
      List.map_map, List.append_assoc]
    rfl

/-- C7 (as stated) is false: `find_closest_starter` writes state outside
its arguments, namely stdout.  Running it on a one-starter, one-revision
input in a world with empty stdout leaves a non-empty stdout behind. -/
theorem C7_counterexample :
    (find_closest_starter_run "x" [("a", [("r", "x")])]
        ⟨[], fun _ => none, []⟩).2.stdout ≠ ([] : List String) := by
  unfold find_closest_starter_run
  rw [fcs_run_split "x" [("a", [("r", "x")])] (none, -1)]
  decide

/-- C7 amended: the matching and rendering routines are deterministic and
read no state outside their arguments, and all of them except
`find_closest_starter` write none either: as state transformers over the
ambient `World`, their results do not depend on the incoming world, and
the world is returned unchanged, except that `find_closest_starter`
appends its `print` lines (a header plus one `Comparing <starter> at
<revision>` line per revision) to stdout and changes nothing else. -/
theorem C7_stateless_deterministic :
    (∀ (nq : String) (versions : List (String × List (String × String)))
       (w w' : World),
      (find_closest_starter_run nq versions w).1 =
        starter_notebooks.find_closest_starter nq versions ∧
      (find_closest_starter_run nq versions w).1 =
        (find_closest_starter_run nq versions w').1 ∧
      (find_closest_starter_run nq versions w).2.filesystem = w.filesystem ∧
      (find_closest_starter_run nq versions w).2.session_state =
        w.session_state ∧
      (find_closest_starter_run nq versions w).2.stdout =
        w.stdout ++ fcsPrinted versions) ∧
    (∀ (x y : Notebook) (w w' : World),
      (compute_diff_score_run x y w).1 = (compute_diff_score_run x y w').1 ∧
      (compute_diff_score_run x y w).2 = w) ∧
    (∀ (nb : Notebook) (w w' : World),
      (notebook_to_quarto_run nb w).1 = (notebook_to_quarto_run nb w').1 ∧
      (notebook_to_quarto_run nb w).2 = w) ∧
    (∀ (a b : String) (w w' : World),
      (generate_diff_html_run a b w).1 = (generate_diff_html_run a b w').1 ∧
      (generate_diff_html_run a b w).2 = w) ∧
    (∀ (a b : String) (w w' : World),
      (generate_unified_diff_html_run a b w).1 =
        (generate_unified_diff_html_run a b w').1 ∧
      (generate_unified_diff_html_run a b w).2 = w) := by
  refine ⟨?_, fun x y w w' => ⟨rfl, rfl⟩, fun nb w w' => ⟨rfl, rfl⟩,
    fun a b w w' => ⟨rfl, rfl⟩, fun a b w w' => ⟨rfl, rfl⟩⟩
  intro nq versions w w'
  have hsplit := fcs_run_split nq versions (none, -1)
  have hval : ∀ (wx : World), (find_closest_starter_run nq versions wx).1 =
      starter_notebooks.find_closest_starter nq versions := by
    intro wx
    unfold find_closest_starter_run
    rw [hsplit (wx.stdout ++ ["Find closest starter notebook"])]
    rfl
  have hstdout : (find_closest_starter_run nq versions w).2.stdout =
      w.stdout ++ fcsPrinted versions := by
    unfold find_closest_starter_run
    rw [hsplit (w.stdout ++ ["Find closest starter notebook"])]
    simp [fcsPrinted]
  have hworld : (find_closest_starter_run nq versions w).2.filesystem =
      w.filesystem ∧ (find_closest_starter_run nq versions w).2.session_state =
      w.session_state := by
    unfold find_closest_starter_run
    exact ⟨rfl, rfl⟩
  exact ⟨hval w, (hval w).trans (hval w').symm, hworld.1, hworld.2, hstdout⟩

end Panopticon

namespace Panopticon

/-- The combined per-character action of the three sequential HTML
replacements (`&` first, then `<`, then `>`). -/
def escChar (d : Char) : List Char :=
  if d = '&' then "&amp;".data
  else if d = '<' then "&lt;".data
  else if d = '>' then "&gt;".data
  else [d]

lemma pyReplaceGo_single (c : Char) (rep : List Char) :
    ∀ (fuel : Nat) (s : List Char), s.length ≤ fuel →
      pyReplaceGo fuel s [c] rep =
        s.flatMap fun d => if d = c then rep else [d] := by
  intro fuel
  induction fuel with
  | zero =>
    intro s hs
    have hnil : s = [] := List.length_eq_zero.mp (by omega)
    subst hnil
    rfl
  | succ fuel ih =>
    intro s hs
    match s with
    | [] => rfl
    | d :: rest =>
      by_cases hd : d = c
      · subst hd
        have hpre : ([d] : List Char).isPrefixOf (d :: rest) = true := by
          simp [List.isPrefixOf]
        rw [pyReplaceGo, if_pos ⟨by simp, hpre⟩]
        simp only [List.length_singleton, List.drop_succ_cons, List.drop_zero,
          List.flatMap_cons]
        rw [ih rest (by simp at hs; omega)]
        simp
      · rw [pyReplaceGo, if_neg (by
          intro hcon
          have hp := hcon.2
          simp [List.isPrefixOf] at hp
          exact hd hp.symm)]
        simp only [List.flatMap_cons, if_neg hd]
        rw [ih rest (by simp at hs; omega)]
        rfl

lemma pyReplace_single (c : Char) (rep s : List Char) :
    pyReplace s [c] rep = s.flatMap fun d => if d = c then rep else [d] :=
  pyReplaceGo_single c rep s.length s le_rfl

lemma escapeChars_eq_flatMap (s : List Char) :
    escapeChars s = s.flatMap escChar := by
  unfold escapeChars
  rw [pyReplace_single, pyReplace_single, pyReplace_single,
    List.flatMap_assoc, List.flatMap_assoc]
  congr 1
  funext d
  by_cases h1 : d = '&'
  · subst h1
    decide
  · by_cases h2 : d = '<'
    · subst h2
      decide
    · by_cases h3 : d = '>'
      · subst h3
        decide
      · simp [escChar, h1, h2, h3]

lemma escChar_no_lt (d : Char) : '<' ∉ escChar d := by
  unfold escChar
  split_ifs with h1 h2 h3
  · decide
  · decide
  · decide
  · simp only [List.mem_singleton]
    exact fun hh => h2 hh.symm

lemma escChar_no_gt (d : Char) : '>' ∉ escChar d := by
  unfold escChar
  split_ifs with h1 h2 h3
  · decide
  · decide
  · decide
  · simp only [List.mem_singleton]
    exact fun hh => h3 hh.symm

/-- The escaped text contains no raw `<` or `>`. -/
lemma escape_no_markup (s : List Char) :
    '<' ∉ escapeChars s ∧ '>' ∉ escapeChars s := by
  rw [escapeChars_eq_flatMap]
  constructor <;> intro hmem
  · rw [List.mem_flatMap] at hmem
    obtain ⟨d, _, hd⟩ := hmem
    exact escChar_no_lt d hd
  · rw [List.mem_flatMap] at hmem
    obtain ⟨d, _, hd⟩ := hmem
    exact escChar_no_gt d hd

lemma escChar_nl_free (d : Char) (hd : d ≠ '\n') : '\n' ∉ escChar d := by
  unfold escChar
  split_ifs with h1 h2 h3
  · decide
  · decide
  · decide
  · simp only [List.mem_singleton]
    exact fun hh => hd hh.symm

lemma escape_nl_free {s : List Char} (h : '\n' ∉ s) : '\n' ∉ escapeChars s := by
  rw [escapeChars_eq_flatMap]
  intro hmem
  rw [List.mem_flatMap] at hmem
  obtain ⟨d, hds, hd⟩ := hmem
  exact escChar_nl_free d (fun hh => h (hh ▸ hds)) hd

lemma escape_append (xs ys : List Char) :
    escapeChars (xs ++ ys) = escapeChars xs ++ escapeChars ys := by
  rw [escapeChars_eq_flatMap, escapeChars_eq_flatMap, escapeChars_eq_flatMap,
    List.flatMap_append]

lemma escape_cons_nl (l : List Char) :
    escapeChars ('\n' :: l) = '\n' :: escapeChars l := by
  rw [escapeChars_eq_flatMap, escapeChars_eq_flatMap, List.flatMap_cons]
  rfl

lemma intercalate_cons₂ {γ : Type} (sep x y : List γ) (l : List (List γ)) :
    List.intercalate sep (x :: y :: l) = x ++ sep ++ List.intercalate sep (y :: l) := by
  simp [List.intercalate, List.intersperse]

lemma intercalate_single {γ : Type} (sep x : List γ) :
    List.intercalate sep [x] = x := by
  simp [List.intercalate, List.intersperse]

lemma escape_intercalate :
    ∀ xss : List (List Char),
      escapeChars (List.intercalate ['\n'] xss) =
      List.intercalate ['\n'] (xss.map escapeChars) := by
  intro xss
  induction xss with
  | nil =>
    simp [List.intercalate]
    rfl
  | cons x rest ih =>
    cases rest with
    | nil =>
      rw [intercalate_single, List.map_cons, List.map_nil, intercalate_single]
    | cons y rest2 =>
      have hmapc : List.map escapeChars (x :: y :: rest2) =
          escapeChars x :: escapeChars y :: List.map escapeChars rest2 := rfl
      rw [intercalate_cons₂, List.append_assoc, List.singleton_append,
        escape_append, escape_cons_nl, ih, hmapc, intercalate_cons₂,
        List.append_assoc, List.singleton_append]
      rfl

lemma format_chunk_eq_escape (lines : List String) (start stop : Nat) :
    app.generate_diff_html.format_chunk lines start stop =
      escapeHtml (pyJoin "\n" ((lines.drop start).take (stop - start))) := by
  unfold app.generate_diff_html.format_chunk
  split
  · rename_i h
    rw [h]
    rfl
  · rfl

lemma format_chunk_unified_eq_escape (lines : List String) (start stop : Nat) :
    app.generate_unified_diff_html.format_chunk lines start stop =
      escapeHtml (pyJoin "\n" ((lines.drop start).take (stop - start))) := by
  unfold app.generate_unified_diff_html.format_chunk
  split
  · rename_i h
    rw [h]
    rfl
  · rfl

/-- C8: every text fragment either `generate_diff_html` or
`generate_unified_diff_html` embeds in its output passes through
`format_chunk`, and both copies of `format_chunk` HTML-escape the joined
slice by replacing `&`, `<` and `>` in that order (`escapeHtml`), so no raw
markup survives: the escaped text contains no `<` or `>` character. -/
theorem C8_fragments_escaped :
    (∀ (lines : List String) (start stop : Nat),
      app.generate_diff_html.format_chunk lines start stop =
        escapeHtml (pyJoin "\n" ((lines.drop start).take (stop - start)))) ∧
    (∀ (lines : List String) (start stop : Nat),
      app.generate_unified_diff_html.format_chunk lines start stop =
        escapeHtml (pyJoin "\n" ((lines.drop start).take (stop - start)))) ∧
    (∀ s : String, '<' ∉ (escapeHtml s).data ∧ '>' ∉ (escapeHtml s).data) :=
  ⟨format_chunk_eq_escape, format_chunk_unified_eq_escape,
   fun s => escape_no_markup s.data⟩

end Panopticon

namespace Panopticon

lemma splitOnNl_no_nl (xs : List Char) (h : '\n' ∉ xs) :
    splitOnNlChars xs = [xs] := by
  induction xs with
  | nil => rfl
  | cons c rest ih =>
    have hc : ¬c = '\n' := fun hh => h (hh ▸ List.mem_cons_self c rest)
    have hr : '\n' ∉ rest := fun hh => h (List.mem_cons_of_mem c hh)
    unfold splitOnNlChars
    rw [if_neg hc, ih hr]

lemma splitOnNl_append_nl (xs ys : List Char) (h : '\n' ∉ xs) :
    splitOnNlChars (xs ++ '\n' :: ys) = xs :: splitOnNlChars ys := by
  induction xs with
  | nil =>
    simp [splitOnNlChars]
  | cons c rest ih =>
    have hc : ¬c = '\n' := fun hh => h (hh ▸ List.mem_cons_self c rest)
    have hr : '\n' ∉ rest := fun hh => h (List.mem_cons_of_mem c hh)
    show splitOnNlChars (c :: (rest ++ '\n' :: ys)) = (c :: rest) :: splitOnNlChars ys
    rw [show splitOnNlChars (c :: (rest ++ '\n' :: ys)) =
        if c = '\n' then [] :: splitOnNlChars (rest ++ '\n' :: ys)
        else match splitOnNlChars (rest ++ '\n' :: ys) with
          | l :: ls => (c :: l) :: ls
          | [] => [[c]] from rfl]
    rw [if_neg hc, ih hr]

lemma splitOnNl_intercalate :
    ∀ xss : List (List Char), xss ≠ [] → (∀ x ∈ xss, '\n' ∉ x) →
    splitOnNlChars (List.intercalate ['\n'] xss) = xss := by
  intro xss
  induction xss with
  | nil => intro h; exact absurd rfl h
  | cons x rest ih =>
    intro _ hall
    cases rest with
    | nil =>
      rw [intercalate_single]
      exact splitOnNl_no_nl x (hall x (by simp))
    | cons y rest2 =>
      rw [intercalate_cons₂, List.append_assoc, List.singleton_append,
        splitOnNl_append_nl _ _ (hall x (by simp)),
        ih (by simp) (fun z hz => hall z (List.mem_cons_of_mem x hz))]

lemma pySplitOnNl_join (xs : List String) (hne : xs ≠ [])
    (hnl : ∀ x ∈ xs, '\n' ∉ x.data) :
    pySplitOnNl (pyJoin "\n" xs) = xs := by
  unfold pySplitOnNl pyJoin
  show (splitOnNlChars (List.intercalate "\n".data (xs.map String.data))).map
    (fun l => String.mk l) = xs
  rw [show ("\n".data : List Char) = ['\n'] from rfl]
  rw [splitOnNl_intercalate (xs.map String.data)
    (by simpa using hne)
    (by
      intro z hz
      rw [List.mem_map] at hz
      obtain ⟨sx, hsx, rfl⟩ := hz
      exact hnl sx hsx)]
  rw [List.map_map]
  have hid : ((fun l => String.mk l) ∘ String.data) = id := funext fun sx => rfl
  rw [hid, List.map_id]

lemma pySplitOnNl_escape_join (xs : List String) (hne : xs ≠ [])
    (hnl : ∀ x ∈ xs, '\n' ∉ x.data) :
    pySplitOnNl (escapeHtml (pyJoin "\n" xs)) = xs.map escapeHtml := by
  unfold pySplitOnNl escapeHtml pyJoin
  show (splitOnNlChars (escapeChars
      (List.intercalate "\n".data (xs.map String.data)))).map
    (fun l => String.mk l) = xs.map escapeHtml
  rw [show ("\n".data : List Char) = ['\n'] from rfl, escape_intercalate]
  rw [splitOnNl_intercalate ((xs.map String.data).map escapeChars)
    (by simpa using hne)
    (by
      intro z hz
      rw [List.mem_map] at hz
      obtain ⟨w, hw, rfl⟩ := hz
      rw [List.mem_map] at hw
      obtain ⟨sx, hsx, rfl⟩ := hw
      exact escape_nl_free (hnl sx hsx))]
  rw [List.map_map, List.map_map]
  rfl

lemma lines_html_join (xs : List String) (hne : xs ≠ [])
    (hnl : ∀ x ∈ xs, '\n' ∉ x.data) :
    (app.generate_diff_html.lines_html (pyJoin "\n" xs)).length =
    if pyJoin "\n" xs = "" then 0 else xs.length := by
  unfold app.generate_diff_html.lines_html
  split
  · rfl
  · rw [List.length_map, pySplitOnNl_join xs hne hnl]

lemma chunk_split_eq (lines : List String) (start stop : Nat)
    (hslice : (lines.drop start).take (stop - start) ≠ [])
    (hnl : ∀ l ∈ lines, '\n' ∉ l.data) :
    pySplitOnNl (app.generate_diff_html.format_chunk lines start stop) =
      ((lines.drop start).take (stop - start)).map escapeHtml := by
  unfold app.generate_diff_html.format_chunk
  rw [if_neg hslice]
  refine pySplitOnNl_escape_join _ hslice ?_
  intro x hx
  exact hnl x (List.mem_of_mem_drop (List.mem_of_mem_take hx))

/-- C9 (as stated) is false: for the `insert` opcode produced when the
starter is empty and the submission is one line, the left side of the
changed row renders zero line divs while the right side renders one. -/
theorem C9_counterexample :
    ∃ sides,
      app.generate_diff_html.changedRowSides [] ["x"] "insert" 0 0 0 1 =
        some sides ∧
      (app.generate_diff_html.lines_html sides.1.1).length ≠
        (app.generate_diff_html.lines_html sides.2.1).length :=
  ⟨(("", ""), ("x", "diff-insert")), by decide, by decide⟩

end Panopticon

namespace Panopticon

lemma slice_length (lines : List String) (s e : Nat) (h1 : s < e)
    (h2 : e ≤ lines.length) :
    ((lines.drop s).take (e - s)).length = e - s := by
  simp only [List.length_take, List.length_drop]
  omega

lemma slice_ne_nil (lines : List String) (s e : Nat) (h1 : s < e)
    (h2 : e ≤ lines.length) :
    (lines.drop s).take (e - s) ≠ [] := by
  apply List.ne_nil_of_length_pos
  rw [slice_length lines s e h1 h2]
  omega

lemma slice_nl_free (lines : List String) (hnl : ∀ l ∈ lines, '\n' ∉ l.data)
    (s e : Nat) : ∀ x ∈ (lines.drop s).take (e - s), '\n' ∉ x.data :=
  fun x hx => hnl x (List.mem_of_mem_drop (List.mem_of_mem_take hx))

lemma padded_count (L : List String) (n : Nat) (hne : L ≠ [])
    (hnl : ∀ x ∈ L, '\n' ∉ x.data) :
    (app.generate_diff_html.lines_html
        (pyJoin "\n" (L ++ List.replicate n ""))).length =
    if pyJoin "\n" (L ++ List.replicate n "") = "" then 0 else L.length + n := by
  have h1 : (L ++ List.replicate n "").length = L.length + n := by simp
  rw [lines_html_join (L ++ List.replicate n "")
    (fun hcon => hne (List.append_eq_nil.mp hcon).1)
    (by
      intro x hx
      rcases List.mem_append.mp hx with hx | hx
      · exact hnl x hx
      · rw [List.eq_of_mem_replicate hx]
        decide), h1]

/-- C9 amended: rows are appended only in left/right pairs, and for every
`replace`, `delete` or `insert` opcode the two sides are built from line
lists padded to a common length `N ≥ 1`; each side renders exactly `N` line
divs, except that a side whose joined text is the empty string (a single
blank line) renders zero divs, because `format_lines` returns early on
empty input. -/
theorem C9_changed_rows_amended (a_lines b_lines : List String) (tag : String)
    (i1 i2 j1 j2 : Nat)
    (hA : ∀ l ∈ a_lines, '\n' ∉ l.data) (hB : ∀ l ∈ b_lines, '\n' ∉ l.data)
    (hvalid : (tag = "replace" ∧ i1 < i2 ∧ i2 ≤ a_lines.length ∧
        j1 < j2 ∧ j2 ≤ b_lines.length) ∨
      (tag = "delete" ∧ i1 < i2 ∧ i2 ≤ a_lines.length) ∨
      (tag = "insert" ∧ j1 < j2 ∧ j2 ≤ b_lines.length)) :
    ∃ sides N,
      app.generate_diff_html.changedRowSides a_lines b_lines tag i1 i2 j1 j2 =
        some sides ∧ 1 ≤ N ∧
      (app.generate_diff_html.lines_html sides.1.1).length =
        (if sides.1.1 = "" then 0 else N) ∧
      (app.generate_diff_html.lines_html sides.2.1).length =
        (if sides.2.1 = "" then 0 else N) := by
  rcases hvalid with ⟨htag, hi1, hi2, hj1, hj2⟩ | ⟨htag, hi1, hi2⟩ |
    ⟨htag, hj1, hj2⟩
  · subst htag
    unfold app.generate_diff_html.changedRowSides
    rw [if_pos rfl]
    set L := pySplitOnNl (app.generate_diff_html.format_chunk a_lines i1 i2)
      with hL
    set R := pySplitOnNl (app.generate_diff_html.format_chunk b_lines j1 j2)
      with hR
    have hLs : L = ((a_lines.drop i1).take (i2 - i1)).map escapeHtml := by
      rw [hL]
      exact chunk_split_eq a_lines i1 i2 (slice_ne_nil _ _ _ hi1 hi2) hA
    have hRs : R = ((b_lines.drop j1).take (j2 - j1)).map escapeHtml := by
      rw [hR]
      exact chunk_split_eq b_lines j1 j2 (slice_ne_nil _ _ _ hj1 hj2) hB
    have hLlen : L.length = i2 - i1 := by
      rw [hLs, List.length_map, slice_length _ _ _ hi1 hi2]
    have hRlen : R.length = j2 - j1 := by
      rw [hRs, List.length_map, slice_length _ _ _ hj1 hj2]
    have hLnl : ∀ x ∈ L, '\n' ∉ x.data := by
      rw [hLs]
      intro x hx
      rw [List.mem_map] at hx
      obtain ⟨w, hw, rfl⟩ := hx
      exact escape_nl_free (slice_nl_free a_lines hA i1 i2 w hw)
    have hRnl : ∀ x ∈ R, '\n' ∉ x.data := by
      rw [hRs]
      intro x hx
      rw [List.mem_map] at hx
      obtain ⟨w, hw, rfl⟩ := hx
      exact escape_nl_free (slice_nl_free b_lines hB j1 j2 w hw)
    refine ⟨_, max L.length R.length, rfl, by omega, ?_, ?_⟩
    · have hc := padded_count L (max L.length R.length - L.length)
        (List.ne_nil_of_length_pos (by omega)) hLnl
      have harith : L.length + (max L.length R.length - L.length) =
          max L.length R.length := by omega
      rw [harith] at hc
      exact hc
    · have hc := padded_count R (max L.length R.length - R.length)
        (List.ne_nil_of_length_pos (by omega)) hRnl
      have harith : R.length + (max L.length R.length - R.length) =
          max L.length R.length := by omega
      rw [harith] at hc
      exact hc
  · subst htag
    unfold app.generate_diff_html.changedRowSides
    rw [if_neg (by decide), if_pos rfl]
    have hsp : pySplitOnNl (app.generate_diff_html.format_chunk a_lines i1 i2) =
        ((a_lines.drop i1).take (i2 - i1)).map escapeHtml :=
      chunk_split_eq a_lines i1 i2 (slice_ne_nil _ _ _ hi1 hi2) hA
    have hlen : (pySplitOnNl
        (app.generate_diff_html.format_chunk a_lines i1 i2)).length = i2 - i1 := by
      rw [hsp, List.length_map, slice_length _ _ _ hi1 hi2]
    refine ⟨_, i2 - i1, rfl, by omega, ?_, ?_⟩
    · unfold app.generate_diff_html.lines_html
      split
      · rfl
      · rw [List.length_map, hsp, List.length_map, slice_length _ _ _ hi1 hi2]
    · rw [hlen]
      have hc := lines_html_join (List.replicate (i2 - i1) "")
        (List.ne_nil_of_length_pos (by simp; omega))
        (by
          intro x hx
          rw [List.eq_of_mem_replicate hx]
          decide)
      rw [List.length_replicate] at hc
      exact hc
  · subst htag
    unfold app.generate_diff_html.changedRowSides
    rw [if_neg (by decide), if_neg (by decide), if_pos rfl]
    have hsp : pySplitOnNl (app.generate_diff_html.format_chunk b_lines j1 j2) =
        ((b_lines.drop j1).take (j2 - j1)).map escapeHtml :=
      chunk_split_eq b_lines j1 j2 (slice_ne_nil _ _ _ hj1 hj2) hB
    have hlen : (pySplitOnNl
        (app.generate_diff_html.format_chunk b_lines j1 j2)).length = j2 - j1 := by
      rw [hsp, List.length_map, slice_length _ _ _ hj1 hj2]
    refine ⟨_, j2 - j1, rfl, by omega, ?_, ?_⟩
    · rw [hlen]
      have hc := lines_html_join (List.replicate (j2 - j1) "")
        (List.ne_nil_of_length_pos (by simp; omega))
        (by
          intro x hx
          rw [List.eq_of_mem_replicate hx]
          decide)
      rw [List.length_replicate] at hc
      exact hc
    · unfold app.generate_diff_html.lines_html
      split
      · rfl
      · rw [List.length_map, hsp, List.length_map, slice_length _ _ _ hj1 hj2]

/-- Witness for the C9 amended statement at a concrete `delete` opcode. -/
theorem C9_amended_witness :
    ((∀ l ∈ (["a", "b"] : List String), '\n' ∉ l.data) ∧
      (∀ l ∈ ([] : List String), '\n' ∉ l.data)) ∧
    ∃ sides N,
      app.generate_diff_html.changedRowSides ["a", "b"] [] "delete" 0 2 0 0 =
        some sides ∧ 1 ≤ N ∧
      (app.generate_diff_html.lines_html sides.1.1).length =
        (if sides.1.1 = "" then 0 else N) ∧
      (app.generate_diff_html.lines_html sides.2.1).length =
        (if sides.2.1 = "" then 0 else N) := by
  refine ⟨⟨by decide, by decide⟩, ?_⟩
  exact C9_changed_rows_amended ["a", "b"] [] "delete" 0 2 0 0
    (by decide) (by decide) (Or.inr (Or.inl ⟨rfl, by omega, by decide⟩))

end Panopticon
